import Mathlib

/-!
# Verification of the ace-prep-panel content-generation workflow

This development embeds the backend handlers of the interview-preparation
application (Supabase edge functions under `supabase/functions/`) as Lean
functions and proves properties of them: the AI-response parser with its
markdown-fence fallback (`_shared/utils.ts`, `parseAIResponse`), the
`callOpenAI` wrappers, the cross-question fallback and persistence sequence of
`generate-topic-content` / `create-custom-topic` / `generate-content`, the
slug derivation and sort-order assignment of `create-custom-topic`, and the
duplicate-checking batch topic creation loop.

Strings are modelled as `List Char`.  JavaScript's `JSON.parse` is modelled by
`jsonParse` below; JSON numbers are kept as their source lexeme, which is
adequate here because every comparison made in this development feeds both
sides through the same parser.  `undefined` is modelled as `Option.none`.
-/

namespace AcePrep

/-- JSON values as produced by `JSON.parse`. -/
inductive JVal : Type where
  | jnull : JVal
  | jbool : Bool → JVal
  | jnum : List Char → JVal
  | jstr : List Char → JVal
  | jarr : List JVal → JVal
  | jobj : List (List Char × JVal) → JVal

open JVal

/-- Whitespace accepted between tokens by the JSON grammar. -/
def isWS (c : Char) : Bool :=
  c = ' ' || c = '\t' || c = '\n' || c = '\r'

/-- The digit class `0`–`9` (code points 48–57). -/
def isDigit (c : Char) : Bool := 48 ≤ c.toNat && c.toNat ≤ 57

def isHex (c : Char) : Bool :=
  isDigit c || ('a' ≤ c && c ≤ 'f') || ('A' ≤ c && c ≤ 'F')

def hexVal (c : Char) : Nat :=
  if isDigit c then c.toNat - '0'.toNat
  else if 'a' ≤ c && c ≤ 'f' then c.toNat - 'a'.toNat + 10
  else c.toNat - 'A'.toNat + 10

/-- The integer part of a JSON number: a single `0`, or a nonzero digit
followed by digits.  Returns the consumed lexeme and the rest. -/
def parseIntPart : List Char → Option (List Char × List Char)
  | [] => none
  | c :: rest =>
    if c = '0' then some (['0'], rest)
    else if isDigit c then
      some (c :: rest.takeWhile isDigit, rest.dropWhile isDigit)
    else none

/-- The optional fraction part `.digits` of a JSON number; returns the
consumed lexeme (empty when absent) and the rest. -/
def parseFrac : List Char → List Char × List Char
  | '.' :: d :: r =>
    if isDigit d then
      ('.' :: d :: r.takeWhile isDigit, r.dropWhile isDigit)
    else ([], '.' :: d :: r)
  | r => ([], r)

/-- The optional exponent part `e[+-]digits` of a JSON number. -/
def parseExp (l : List Char) : List Char × List Char :=
  match l with
  | e :: r =>
    if e = 'e' || e = 'E' then
      let (sgn, r2) : List Char × List Char :=
        match r with
        | '+' :: r' => (['+'], r')
        | '-' :: r' => (['-'], r')
        | r' => ([], r')
      match r2 with
      | d :: r3 =>
        if isDigit d then
          (e :: (sgn ++ d :: r3.takeWhile isDigit), r3.dropWhile isDigit)
        else ([], l)
      | [] => ([], l)
    else ([], l)
  | [] => ([], l)

/-- A JSON number lexeme after the optional minus sign. -/
def parseNumCore (l1 : List Char) : Option (List Char × List Char) :=
  match parseIntPart l1 with
  | none => none
  | some (ip, l2) =>
    let (fp, l3) := parseFrac l2
    let (ep, l4) := parseExp l3
    some (ip ++ fp ++ ep, l4)

/-- A JSON number lexeme: optional minus sign, integer part, optional
fraction, optional exponent. -/
def parseNum (l : List Char) : Option (List Char × List Char) :=
  match l with
  | [] => none
  | c :: r =>
    if c = '-' then (parseNumCore r).map (fun p => ('-' :: p.1, p.2))
    else parseNumCore (c :: r)

/-- Decode a JSON string body after the opening quote; returns the decoded
characters and the input after the closing quote. -/
def parseStr (fuel : Nat) (l : List Char) : Option (List Char × List Char) :=
  match fuel, l with
  | 0, _ => none
  | _, [] => none
  | fuel + 1, c :: rest =>
    if c = '"' then some ([], rest)
    else if c = '\\' then
      match rest with
      | [] => none
      | e :: rest2 =>
        let dec : Option (Char × List Char) :=
          if e = '"' then some ('"', rest2)
          else if e = '\\' then some ('\\', rest2)
          else if e = '/' then some ('/', rest2)
          else if e = 'b' then some ('\x08', rest2)
          else if e = 'f' then some ('\x0c', rest2)
          else if e = 'n' then some ('\n', rest2)
          else if e = 'r' then some ('\r', rest2)
          else if e = 't' then some ('\t', rest2)
          else if e = 'u' then
            match rest2 with
            | h1 :: h2 :: h3 :: h4 :: rest3 =>
              if isHex h1 && isHex h2 && isHex h3 && isHex h4 then
                some (Char.ofNat (((hexVal h1 * 16 + hexVal h2) * 16 + hexVal h3) * 16 + hexVal h4), rest3)
              else none
            | _ => none
          else none
        match dec with
        | some (ch, rest') =>
          match parseStr fuel rest' with
          | some (s, rem) => some (ch :: s, rem)
          | none => none
        | none => none
    else if c.toNat < 32 then none
    else
      match parseStr fuel rest with
      | some (s, rem) => some (c :: s, rem)
      | none => none

mutual

/-- Parse one JSON value (leading whitespace allowed); returns the value and
the unconsumed rest of the input. -/
def parseVal (fuel : Nat) (l : List Char) : Option (JVal × List Char) :=
  match fuel with
  | 0 => none
  | fuel + 1 =>
    match l.dropWhile isWS with
    | [] => none
    | c :: rest =>
      if c = '{' then
        parseObj fuel rest
      else if c = '[' then
        parseArr fuel rest
      else if c = '"' then
        match parseStr fuel rest with
        | some (s, rem) => some (jstr s, rem)
        | none => none
      else if c = 't' then
        match rest with
        | 'r' :: 'u' :: 'e' :: rem => some (jbool true, rem)
        | _ => none
      else if c = 'f' then
        match rest with
        | 'a' :: 'l' :: 's' :: 'e' :: rem => some (jbool false, rem)
        | _ => none
      else if c = 'n' then
        match rest with
        | 'u' :: 'l' :: 'l' :: rem => some (jnull, rem)
        | _ => none
      else
        match parseNum (c :: rest) with
        | some (lex, rem) => some (jnum lex, rem)
        | none => none

/-- Parse an object body after the opening brace. -/
def parseObj (fuel : Nat) (l : List Char) : Option (JVal × List Char) :=
  match fuel with
  | 0 => none
  | fuel + 1 =>
    match l.dropWhile isWS with
    | '}' :: rem => some (jobj [], rem)
    | '"' :: rest =>
      match parseStr fuel rest with
      | some (k, rest2) =>
        match rest2.dropWhile isWS with
        | ':' :: rest3 =>
          match parseVal fuel rest3 with
          | some (v, rest4) =>
            match parseMembers fuel rest4 with
            | some (fs, rem) => some (jobj ((k, v) :: fs), rem)
            | none => none
          | none => none
        | _ => none
      | none => none
    | _ => none

/-- Parse the continuation of an object: comma-separated members, then the
closing brace. -/
def parseMembers (fuel : Nat) (l : List Char) : Option (List (List Char × JVal) × List Char) :=
  match fuel with
  | 0 => none
  | fuel + 1 =>
    match l.dropWhile isWS with
    | '}' :: rem => some ([], rem)
    | ',' :: rest =>
      match rest.dropWhile isWS with
      | '"' :: rest1 =>
        match parseStr fuel rest1 with
        | some (k, rest2) =>
          match rest2.dropWhile isWS with
          | ':' :: rest3 =>
            match parseVal fuel rest3 with
            | some (v, rest4) =>
              match parseMembers fuel rest4 with
              | some (fs, rem) => some ((k, v) :: fs, rem)
              | none => none
            | none => none
          | _ => none
        | none => none
      | _ => none
    | _ => none

/-- Parse an array body after the opening bracket. -/
def parseArr (fuel : Nat) (l : List Char) : Option (JVal × List Char) :=
  match fuel with
  | 0 => none
  | fuel + 1 =>
    match l.dropWhile isWS with
    | ']' :: rem => some (jarr [], rem)
    | _ =>
      match parseVal fuel l with
      | some (v, rest) =>
        match parseElems fuel rest with
        | some (vs, rem) => some (jarr (v :: vs), rem)
        | none => none
      | none => none

/-- Parse the continuation of an array: comma-separated elements, then the
closing bracket. -/
def parseElems (fuel : Nat) (l : List Char) : Option (List JVal × List Char) :=
  match fuel with
  | 0 => none
  | fuel + 1 =>
    match l.dropWhile isWS with
    | ']' :: rem => some ([], rem)
    | ',' :: rest =>
      match parseVal fuel rest with
      | some (v, rest2) =>
        match parseElems fuel rest2 with
        | some (vs, rem) => some ((v :: vs), rem)
        | none => none
      | none => none
    | _ => none

end

/-- `JSON.parse`: the whole input must be one JSON value, up to surrounding
whitespace; anything else throws (modelled as `none`). -/
def jsonParse (l : List Char) : Option JVal :=
  match parseVal (l.length + 1) l with
  | some (v, rest) => if rest.dropWhile isWS = [] then some v else none
  | none => none

/-! ## The markdown-fence fallback regex

`parseAIResponse` falls back to
`rawContent.match(/` three backticks `(?:json)?\s*(\{[\s\S]*?\})\s*` three
backticks `/)` when direct parsing fails.  The pattern is simple enough to
execute deterministically: after the backticks and the optional greedy `json`
tag comes greedy whitespace, then the capture, a lazily-extended body between
literal braces, then greedy whitespace and the closing backticks.  Since no
whitespace character is a brace or a backtick, the greedy parts never
backtrack, and the lazy body extends to the first closing brace followed by
whitespace and three backticks.  `fenceScan` returns the capture group of the
leftmost match. -/

/-- Whitespace class `\s` of the fence regex (the ASCII part; the inputs
treated here contain no Unicode space characters). -/
def isSp (c : Char) : Bool :=
  c = ' ' || c = '\t' || c = '\n' || c = '\r' || c = '\x0c' || c = '\x0b'

/-- The backtick character. -/
def bt : Char := Char.ofNat 96

/-- Does the list start with three backticks? -/
def startsBT (l : List Char) : Bool :=
  match l with
  | a :: b :: c :: _ => a = bt && b = bt && c = bt
  | _ => false

/-- Does the list start with the literal `json` tag? -/
def startsJsonTag (l : List Char) : Bool :=
  match l with
  | 'j' :: 's' :: 'o' :: 'n' :: _ => true
  | _ => false

/-- Lazy scan for `([\s\S]*?)` up to a closing brace that is followed by
`\s*` and three backticks.  `acc` holds the body scanned so far, reversed.
Returns the whole capture group including its surrounding braces. -/
def lazyScan (acc : List Char) : List Char → Option (List Char)
  | [] => none
  | c :: rest =>
    if c = '}' && startsBT (rest.dropWhile isSp) then
      some ('{' :: (acc.reverse ++ ['}']))
    else lazyScan (c :: acc) rest

/-- After the opening backticks and optional tag: `\s*`, an opening brace,
then the lazy body. -/
def tryBody (l : List Char) : Option (List Char) :=
  match l.dropWhile isSp with
  | '{' :: rest => lazyScan [] rest
  | _ => none

/-- Attempt the fence pattern anchored at the start of `l`: three backticks,
optional `json` tag (greedy, with backtracking), then the body. -/
def tryFence (l : List Char) : Option (List Char) :=
  if startsBT l then
    let rest := l.drop 3
    if startsJsonTag rest then
      match tryBody (rest.drop 4) with
      | some cap => some cap
      | none => tryBody rest
    else tryBody rest
  else none

/-- Leftmost match of the fence pattern (`String.prototype.match` semantics:
the earliest starting position wins); returns the capture group. -/
def fenceScan : List Char → Option (List Char)
  | [] => none
  | c :: rest =>
    match tryFence (c :: rest) with
    | some cap => some cap
    | none => fenceScan rest

/-- `parseAIResponse` from `supabase/functions/_shared/utils.ts` (lines
82–102): parse the raw text directly; on failure extract a fenced block and
parse its capture; otherwise (or when the capture fails to parse) throw the
invalid-format error. -/
def parseAIResponse (raw : List Char) (context : List Char) : Except (List Char) JVal :=
  match jsonParse raw with
  | some v => Except.ok v
  | none =>
    match fenceScan raw with
    | some cap =>
      match jsonParse cap with
      | some v => Except.ok v
      | none => Except.error ("Invalid response format from AI for ".data ++ context)
    | none => Except.error ("Invalid response format from AI for ".data ++ context)

/-! ## JavaScript value helpers -/

/-- Is the mantissa of a JSON number lexeme zero?  (Used for truthiness.) -/
def numIsZero (s : List Char) : Bool :=
  (s.takeWhile (fun c => !(c = 'e' || c = 'E'))).all
    (fun c => c = '-' || c = '0' || c = '.')

/-- JavaScript truthiness of a JSON value. -/
def jsTruthy : JVal → Bool
  | jnull => false
  | jbool b => b
  | jnum s => !numIsZero s
  | jstr s => !s.isEmpty
  | jarr _ => true
  | jobj _ => true

/-- Property access `v[k]` on a parsed JSON value: defined for objects
(`JSON.parse` keeps the last of duplicate keys), `none` (undefined) for
missing keys and for primitives/arrays, whose own properties are never the
keys used by this code. -/
def getField : JVal → List Char → Option JVal
  | jobj fs, k => ((fs.filter (fun p => p.1 = k)).getLast?).map (·.2)
  | _, _ => none

/-- `x || d` on an optionally-present value (`none` = undefined). -/
def jsOrElse (o : Option JVal) (d : JVal) : JVal :=
  match o with
  | some v => if jsTruthy v then v else d
  | none => d

/-- `x ?? d` on an optionally-present value (`none` = undefined). -/
def jsCoalesce (o : Option JVal) (d : JVal) : JVal :=
  match o with
  | some jnull => d
  | some v => v
  | none => d

/-- One step of an optional chain `x?.…`: short-circuits on null/undefined. -/
def optStep (o : Option JVal) (f : JVal → Option JVal) : Option JVal :=
  match o with
  | some jnull => none
  | some v => f v
  | none => none

/-- `String.prototype.trim` (ASCII whitespace). -/
def trimL (l : List Char) : List Char :=
  ((l.dropWhile isSp).reverse.dropWhile isSp).reverse

/-- `String.prototype.toLowerCase` (the titles and notes handled here are
basic-latin text). -/
def lowerL (l : List Char) : List Char := l.map Char.toLower

/-- Is `pat` a prefix of the list? -/
def hasPfx : List Char → List Char → Bool
  | [], _ => true
  | _ :: _, [] => false
  | p :: ps, c :: cs => p = c && hasPfx ps cs

/-- `String.prototype.includes`: does `pat` occur as a contiguous substring? -/
def occurs (pat : List Char) : List Char → Bool
  | [] => pat.isEmpty
  | c :: rest => hasPfx pat (c :: rest) || occurs pat rest

/-! ## Cross-question processing and the persisted ContentVersion row

`generate-topic-content/index.ts` (lines 69–100) and
`create-custom-topic/index.ts` (lines 102–132) destructure the parsed AI
response, keep only the usable cross-question strings, substitute four
fallback questions templated on the lower-cased topic title when none are
usable, and build the `topic_content_versions` row.  The older
`generate-content/index.ts` copy (lines 394–409) persists
`cross_questions || []` with no filtering and no fallback. -/

def kKeyPoints : List Char := "key_points".data
def kScript : List Char := "script".data
def kCrossQuestions : List Char := "cross_questions".data

/-- The filter `q && typeof q === 'string' && q.trim().length > 0`. -/
def isUsableQuestion (v : JVal) : Bool :=
  jsTruthy v &&
    (match v with
     | jstr s => !(trimL s).isEmpty
     | _ => false)

/-- The model-derived candidate list: the `cross_questions` field if it is an
array, `[]` otherwise (`Array.isArray` guard), filtered to usable strings. -/
def filteredCrossQuestions (parsed : JVal) : List JVal :=
  match getField parsed kCrossQuestions with
  | some (jarr qs) => qs.filter isUsableQuestion
  | _ => []

/-- The four fallback questions, templated on the lower-cased topic title. -/
def fallbackQuestions (topicTitle : List Char) : List JVal :=
  [ jstr ("Can you elaborate on your experience with ".data ++ lowerL topicTitle ++ "?".data),
    jstr ("What challenges did you face when working on ".data ++ lowerL topicTitle ++ "?".data),
    jstr ("How did you measure success in your ".data ++ lowerL topicTitle ++ " projects?".data),
    jstr ("What would you do differently if you had to approach ".data ++ lowerL topicTitle ++ " again?".data) ]

/-- `processedCrossQuestions` of `generate-topic-content` /
`create-custom-topic`: the filtered list, or the four fallbacks when it is
empty. -/
def processedCrossQuestions (parsed : JVal) (topicTitle : List Char) : List JVal :=
  let filtered := filteredCrossQuestions parsed
  if filtered.isEmpty then fallbackQuestions topicTitle else filtered

/-- A `topic_content_versions` row as built by the handlers. -/
structure VersionRow where
  topic_id : Nat
  user_id : Nat
  source_notes : List Char
  bullets : JVal
  script : JVal
  cross_questions : JVal

/-- The row inserted by `generate-topic-content` (and, identically,
`create-custom-topic`): destructuring the parsed response throws on `null`
(modelled as `none`), otherwise the row carries `key_points || []`,
`script || ''` and the processed cross-questions. -/
def gtcVersionRow (parsed : JVal) (topicTitle : List Char)
    (topicId userId : Nat) (sourceContent : List Char) : Option VersionRow :=
  match parsed with
  | jnull => none
  | _ => some
    { topic_id := topicId
      user_id := userId
      source_notes := sourceContent
      bullets := jsOrElse (getField parsed kKeyPoints) (jarr [])
      script := jsOrElse (getField parsed kScript) (jstr [])
      cross_questions := jarr (processedCrossQuestions parsed topicTitle) }

/-- The row inserted by the `generate-content` copy of `generateTopicContent`
(lines 394–409): `cross_questions || []`, unfiltered, no fallback. -/
def gcVersionRow (parsed : JVal)
    (topicId userId : Nat) (sourceContent : List Char) : Option VersionRow :=
  match parsed with
  | jnull => none
  | _ => some
    { topic_id := topicId
      user_id := userId
      source_notes := sourceContent
      bullets := jsOrElse (getField parsed kKeyPoints) (jarr [])
      script := jsOrElse (getField parsed kScript) (jstr [])
      cross_questions := jsOrElse (getField parsed kCrossQuestions) (jarr []) }

/-! ## The relational store

Three tables matter to the claims: `topics` (unique on `(user_id, slug)` per
the migration), `topic_content_versions`, and `topic_current_version` (one
row per topic).  Row ids are modelled as naturals handed out by counters. -/

structure TopicRow where
  id : Nat
  user_id : Nat
  title : List Char
  slug : List Char
  category : List Char
  icon_name : List Char
  color : List Char
  sort_order : Int

structure DB where
  topics : List TopicRow
  versions : List (Nat × VersionRow)
  pointers : List (Nat × Nat × Nat)
  nextTopicId : Nat
  nextVersionId : Nat

/-- Upsert of `topic_current_version`, keyed by `topic_id`:
insert-or-replace. -/
def upsertPointer (db : DB) (topicId versionId userId : Nat) : DB :=
  { db with pointers :=
      (db.pointers.filter (fun p => !(p.1 = topicId : Bool))) ++ [(topicId, versionId, userId)] }

/-- The persistence phase shared verbatim by `generate-topic-content` (lines
87–116) and `create-custom-topic` (lines 119–147): insert the ContentVersion
row; on insert error throw (returning `none` and the untouched store); only
on success run the pointer upsert, keyed by the id the insert returned.
`insertSucceeds` is the outcome of the insert reported by the store. -/
def persistContentVersion (insertSucceeds : Bool) (db : DB) (row : VersionRow) :
    Option Nat × DB :=
  if insertSucceeds then
    let vid := db.nextVersionId
    let db1 := { db with versions := db.versions ++ [(vid, row)], nextVersionId := vid + 1 }
    (some vid, upsertPointer db1 row.topic_id vid row.user_id)
  else (none, db)

/-! ## The two `callOpenAI` wrappers (`_shared/utils.ts`)

The file holds two revisions of the shared utilities.  The first copy (lines
52–79) throws `OpenAI API error: ${response.status}` on a failed response and
extracts `data.choices?.[0]?.message?.content ?? '{}'`.  The second copy
(lines 175–202) throws `OpenAI API error: ${errorData.error?.message ||
'Unknown error'}` — without the status — and extracts
`data.choices[0].message.content` with no optional chaining and no
fallback. -/

structure HttpResp where
  ok : Bool
  status : Nat
  body : JVal

inductive CallError where
  | apiStatus (status : Nat)
  | apiMessage (msg : JVal)
  | typeError

def kChoices : List Char := "choices".data
def kMessage : List Char := "message".data
def kContent : List Char := "content".data
def kError : List Char := "error".data

def arrFirst : JVal → Option JVal
  | jarr (x :: _) => some x
  | _ => none

/-- `data.choices?.[0]?.message?.content` (the first access is unguarded, so
the caller must rule out a null body). -/
def optChainContent (body : JVal) : Option JVal :=
  optStep (optStep (optStep (getField body kChoices) arrFirst)
    (fun m => getField m kMessage)) (fun m => getField m kContent)

/-- First copy of `callOpenAI` (lines 52–79), applied to the response of the
model endpoint. -/
def callOpenAIv1 (resp : HttpResp) : Except CallError JVal :=
  if !resp.ok then Except.error (CallError.apiStatus resp.status)
  else
    match resp.body with
    | jnull => Except.error CallError.typeError
    | body => Except.ok (jsCoalesce (optChainContent body) (jstr "\x7b\x7d".data))

/-- `data.choices[0].message.content` without optional chaining: any missing
or null link before the final field throws. -/
def strictChainContent (body : JVal) : Except Unit (Option JVal) :=
  match body with
  | jnull => Except.error ()
  | _ =>
    match getField body kChoices with
    | none => Except.error ()
    | some jnull => Except.error ()
    | some choices =>
      match arrFirst choices with
      | none => Except.error ()
      | some jnull => Except.error ()
      | some first =>
        match getField first kMessage with
        | none => Except.error ()
        | some jnull => Except.error ()
        | some msg => Except.ok (getField msg kContent)

/-- Second copy of `callOpenAI` (lines 175–202). -/
def callOpenAIv2 (resp : HttpResp) : Except CallError (Option JVal) :=
  if !resp.ok then
    match resp.body with
    | jnull => Except.error CallError.typeError
    | body =>
      Except.error (CallError.apiMessage
        (jsOrElse (optStep (getField body kError) (fun e => getField e kMessage))
          (jstr "Unknown error".data)))
  else
    match strictChainContent resp.body with
    | Except.ok v => Except.ok v
    | Except.error _ => Except.error CallError.typeError

/-- Does a call error identify the HTTP status code? -/
def carriesStatus : CallError → Bool
  | CallError.apiStatus _ => true
  | _ => false

/-! ## The `generate-topic-content` prompt builder (lines 14–59) -/

/-- `hasRealContent`: the source text is meaningful when it is non-empty,
longer than 50 characters, and free of the placeholder markers. -/
def gtcHasRealContent (sourceContent : List Char) : Bool :=
  !sourceContent.isEmpty &&
  decide (50 < sourceContent.length) &&
  !occurs "note:".data (lowerL sourceContent) &&
  !occurs "error extracting".data (lowerL sourceContent) &&
  !occurs "requires integration".data (lowerL sourceContent)

def guidanceReal : List Char :=
  "Use the specific details from the source content above to create personalized, relevant responses.".data

def guidanceLimited : List Char :=
  "Source content is limited. Generate realistic data engineer responses for this topic using industry best practices and common scenarios.".data

def qualityReal : List Char :=
  "Incorporate details from the source content where relevant".data

def qualityLimited : List Char :=
  "Create believable data engineer scenarios and solutions".data

/-- The user prompt of `generateTopicContent` in
`generate-topic-content/index.ts` (lines 26–59). -/
def gtcUserPrompt (topicTitle sourceContent : List Char) : List Char :=
  "GOAL:\nGenerate interview preparation content for the topic: \"".data ++ topicTitle ++
  "\".\n\nSOURCE CONTENT:\n".data ++ sourceContent ++
  "\n\nCONTENT GUIDANCE:\n".data ++
  (if gtcHasRealContent sourceContent then guidanceReal else guidanceLimited) ++
  "\n\nOUTPUT FORMAT (JSON only):\n\x7b\n  \"key_points\": [\n    \"3-5 specific, actionable bullet points; 10-20 words each; include concrete technologies, metrics, or achievements when possible\",\n    \"Focus on technical details, business impact, or leadership examples relevant to \x27".data ++ topicTitle ++
  "\x27\",\n    \"Make each point interview-ready and easy to expand upon\"\n  ],\n  \"script\": \"A 60-120 second first-person narrative that tells a story. Start with context, explain the challenge, describe your approach with specific technologies/methods, and mention the impact. Be conversational but technical. Avoid buzzwords - use concrete examples.\",\n  \"cross_questions\": [\n    \"Follow-up question 1 that an interviewer would ask about \x27".data ++ topicTitle ++
  "\x27\",\n    \"Technical deep-dive question about implementation details\",\n    \"Situational question about challenges or trade-offs\",\n    \"Follow-up about scale, performance, or optimization\"\n  ]\n\x7d\n\nQUALITY STANDARDS:\n- All content should be specific and actionable, not generic\n- Cross-questions should be realistic follow-ups an interviewer would actually ask\n- ".data ++
  (if gtcHasRealContent sourceContent then qualityReal else qualityLimited) ++
  "\n- Focus on the data engineering domain: pipelines, databases, cloud platforms, scalability, data quality\n- ALWAYS include exactly 4 cross_questions for each topic".data

/-- The serve handler's default (line 143): `sourceNotes || '…'` replaces an
absent or empty `sourceNotes`. -/
def defaultSourceNotes : List Char :=
  "Generate content for this interview preparation topic.".data

def effectiveSourceNotes (sourceNotes : List Char) : List Char :=
  if sourceNotes.isEmpty then defaultSourceNotes else sourceNotes

/-! ## Slug derivation (`create-custom-topic/index.ts` lines 17–20) -/

/-- The character class `[a-z0-9]` (by code point: `a`–`z` is 97–122,
`0`–`9` is 48–57). -/
def isLowerAlnum (c : Char) : Bool :=
  (97 ≤ c.toNat && c.toNat ≤ 122) || (48 ≤ c.toNat && c.toNat ≤ 57)

/-- `replace(/[^a-z0-9]+/g, '-')`: each maximal run of characters outside the
class becomes a single hyphen; `inRun` records whether the scan is inside
such a run. -/
def collapseRuns (inRun : Bool) : List Char → List Char
  | [] => []
  | c :: cs =>
    if isLowerAlnum c then c :: collapseRuns false cs
    else if inRun then collapseRuns true cs
    else '-' :: collapseRuns true cs

/-- `replace(/^-+|-+$/g, '')`. -/
def trimHyphens (l : List Char) : List Char :=
  ((l.dropWhile (fun c => c = '-')).reverse.dropWhile (fun c => c = '-')).reverse

/-- The slug of a title: lower-case, collapse non-alphanumeric runs to
hyphens, strip leading and trailing hyphens. -/
def slugOfTitle (title : List Char) : List Char :=
  trimHyphens (collapseRuns false (lowerL title))

/-- Slug form: only `[a-z0-9-]` characters, a hyphen never first, last, or
doubled. -/
def slugChars : List Char → Bool
  | [] => true
  | c :: rest =>
    if c = '-' then
      (match rest with
       | [] => false
       | d :: _ => isLowerAlnum d) && slugChars rest
    else isLowerAlnum c && slugChars rest

def isSlugForm (l : List Char) : Bool :=
  (match l with
   | [] => true
   | c :: _ => !(c = '-' : Bool)) && slugChars l

/-! ## Sort-order assignment (`create-custom-topic/index.ts` lines 33–43) -/

/-- The query: the user's topics ordered by `sort_order` descending,
`limit(1)`. -/
def maxSortQuery (rows : List TopicRow) (userId : Nat) : List TopicRow :=
  ((rows.filter (fun r => decide (r.user_id = userId))).mergeSort
      (fun a b => decide (b.sort_order ≤ a.sort_order))).take 1

/-- `nextSortOrder`: one past the current maximum, or 1 for a first topic. -/
def nextSortOrder (rows : List TopicRow) (userId : Nat) : Int :=
  match maxSortQuery rows userId with
  | [] => 1
  | r :: _ => r.sort_order + 1

/-! ## The batch topic-creation loop

`handleGenerateTabs` of the newer `generate-content` revision (lines
257–334): for each proposed topic, a `(user_id, slug)` lookup with `single()`
semantics (exactly one row, else null); reuse the existing row or insert a
new one; push a reference either way; then generate content only for topics
without an existing content version.  The model call is an oracle `ai`
indexed by the number of calls made so far. -/

structure TopicProposal where
  title : List Char
  slug : List Char
  category : List Char
  icon_name : List Char
  color : List Char
  sort_order : Int

/-- The outcome of one model call: HTTP success flag and the raw text
extracted from the first choice. -/
structure AiReply where
  ok : Bool
  raw : List Char

/-- `.eq('user_id', …).eq('slug', …).single()`: the row if exactly one
matches, otherwise null. -/
def selectSingleTopic (db : DB) (uid : Nat) (slug : List Char) : Option TopicRow :=
  match db.topics.filter (fun r => decide (r.user_id = uid ∧ r.slug = slug)) with
  | [r] => some r
  | _ => none

/-- `.eq('topic_id', …).eq('user_id', …).single()` on the content table. -/
def selectSingleContent (db : DB) (topicId uid : Nat) : Option Nat :=
  match db.versions.filter (fun p => decide (p.2.topic_id = topicId ∧ p.2.user_id = uid)) with
  | [p] => some p.1
  | _ => none

/-- `JSON.parse` with the markdown-fence fallback, as inlined in the batch
revision's `generateTopicContent` (lines 427–447). -/
def parseWithFence (raw : List Char) : Option JVal :=
  match jsonParse raw with
  | some v => some v
  | none =>
    match fenceScan raw with
    | some cap => jsonParse cap
    | none => none

/-- The batch revision's `generateTopicContent` (lines 352–499): on HTTP
failure or unparseable output it returns without writing; otherwise it
builds the processed row, inserts it and upserts the pointer.  All its
failure paths leave the store untouched and are swallowed by the caller. -/
def generateTopicContentTabs (reply : AiReply) (db : DB) (topicId userId : Nat)
    (sourceContent topicTitle : List Char) : DB :=
  if !reply.ok then db
  else
    match parseWithFence reply.raw with
    | none => db
    | some parsed =>
      match gtcVersionRow parsed topicTitle topicId userId sourceContent with
      | none => db
      | some row =>
        let vid := db.nextVersionId
        let db1 := { db with versions := db.versions ++ [(vid, row)], nextVersionId := vid + 1 }
        upsertPointer db1 topicId vid userId

structure BatchState where
  db : DB
  created : List Nat
  calls : Nat

/-- One iteration of the batch loop (lines 278–329). -/
def processProposal (ai : Nat → AiReply) (uid : Nat) (content : List Char)
    (st : BatchState) (p : TopicProposal) : BatchState :=
  match selectSingleTopic st.db uid p.slug with
  | some existing =>
    if (selectSingleContent st.db existing.id uid).isNone then
      { db := generateTopicContentTabs (ai st.calls) st.db existing.id uid content p.title
        created := st.created ++ [existing.id]
        calls := st.calls + 1 }
    else
      { st with created := st.created ++ [existing.id] }
  | none =>
    let row : TopicRow :=
      { id := st.db.nextTopicId, user_id := uid, title := p.title, slug := p.slug
        category := p.category, icon_name := p.icon_name, color := p.color
        sort_order := p.sort_order }
    let db1 : DB :=
      { st.db with topics := st.db.topics ++ [row], nextTopicId := st.db.nextTopicId + 1 }
    if (selectSingleContent db1 row.id uid).isNone then
      { db := generateTopicContentTabs (ai st.calls) db1 row.id uid content p.title
        created := st.created ++ [row.id]
        calls := st.calls + 1 }
    else
      { db := db1, created := st.created ++ [row.id], calls := st.calls }

/-- The whole batch loop over the proposed topics. -/
def handleGenerateTabs (ai : Nat → AiReply) (db : DB) (uid : Nat)
    (content : List Char) (proposals : List TopicProposal) : BatchState :=
  proposals.foldl (processProposal ai uid content) { db := db, created := [], calls := 0 }

/-- The `topicsCreated` field of the success response (line 333):
`createdTopics.length`. -/
def tabsTopicsCreated (st : BatchState) : Nat := st.created.length

/-- The topic rows matching an `(user_id, slug)` key. -/
def keyFilter (ts : List TopicRow) (uid : Nat) (slug : List Char) : List TopicRow :=
  ts.filter (fun r => decide (r.user_id = uid ∧ r.slug = slug))

/-- The `(user_id, slug)` uniqueness constraint of the `topics` table. -/
def uniqueOwnerSlug (ts : List TopicRow) : Prop :=
  ∀ uid slug, (keyFilter ts uid slug).length ≤ 1

/-- The parsed response of the counterexample: a well-formed object whose
`cross_questions` list is empty. -/
def c1BadParsed : JVal :=
  jobj [(kKeyPoints, jarr []), (kScript, jstr "s".data), (kCrossQuestions, jarr [])]

/-- The mocked 429 response with an upstream error message in the body. -/
def resp429 : HttpResp :=
  HttpResp.mk false 429 (jobj [(kError, jobj [(kMessage, jstr "Rate limited".data)])])

/-- A successful response whose body lacks the `choices` field. -/
def respOkEmpty : HttpResp := HttpResp.mk true 200 (jobj [])

/-- No two adjacent hyphens. -/
def noDD : List Char → Bool
  | c :: d :: rest => !((c = '-' : Bool) && (d = '-' : Bool)) && noDD (d :: rest)
  | _ => true

/-- The row inserted for a missed proposal. -/
def newRowFor (st : BatchState) (uid : Nat) (p : TopicProposal) : TopicRow :=
  { id := st.db.nextTopicId, user_id := uid, title := p.title, slug := p.slug
    category := p.category, icon_name := p.icon_name, color := p.color
    sort_order := p.sort_order }

/-- The optional `json` language tag of a fence. -/
def tagChars (t : Bool) : List Char := if t then "json".data else []

/-- The characters that can begin a JSON value other than an object. -/
def goodStarter (c : Char) : Bool :=
  c = '[' || c = '"' || c = 't' || c = 'f' || c = 'n' || c = '-' || isDigit c

/-- A fenced response whose body is a JSON array. -/
def c4Input : List Char := "\x60\x60\x60json\n[1, 2]\n\x60\x60\x60".data

/-- A fenced response whose body is a JSON array containing a string that
itself holds a brace pair between backtick runs. -/
def c9Input : List Char :=
  "\x60\x60\x60json\n[1, \"\x60\x60\x60 \x7b \x7d \x60\x60\x60\"]\n\x60\x60\x60".data

/-- The body of `c9Input` with the outer fence stripped. -/
def c9Body : List Char := "[1, \"\x60\x60\x60 \x7b \x7d \x60\x60\x60\"]".data

/-- A proposal of the eight-topic counterexample batch. -/
def c3Prop (t s : String) (n : Int) : TopicProposal :=
  TopicProposal.mk t.data s.data "Technical".data "code".data "blue".data n

/-- A pre-existing topic of the same owner whose slug collides with proposal
number five. -/
def c3Existing : TopicRow :=
  TopicRow.mk 100 7 "Existing".data "s5".data "Technical".data "code".data "blue".data 5

def c3DB : DB := DB.mk [c3Existing] [] [] 101 0

def c3Proposals : List TopicProposal :=
  [c3Prop "T1" "s1" 1, c3Prop "T2" "s2" 2, c3Prop "T3" "s3" 3, c3Prop "T4" "s4" 4,
   c3Prop "T5" "s5" 5, c3Prop "T6" "s6" 6, c3Prop "T7" "s7" 7, c3Prop "T8" "s8" 8]

def c3Run : BatchState :=
  handleGenerateTabs (fun _ => AiReply.mk false []) c3DB 7 "docs".data c3Proposals

/-! # Theorems -/

/-! ## C1: cross-questions are never persisted empty (amended) -/

lemma fallbackQuestions_ne_nil (t : List Char) : fallbackQuestions t ≠ [] := by
  simp [fallbackQuestions]

lemma processedCrossQuestions_ne_nil (p : JVal) (t : List Char) :
    processedCrossQuestions p t ≠ [] := by
  unfold processedCrossQuestions
  by_cases h : (filteredCrossQuestions p).isEmpty
  · simp [h, fallbackQuestions_ne_nil]
  · simpa [h] using by
      intro hcontra
      simp [hcontra] at h

/-- C1 (amended): every ContentVersion row written by `generate-topic-content`
or `create-custom-topic` carries a non-empty `cross_questions` array, and when
the model-derived candidate list is empty (or holds only non-string/blank
entries) the row carries exactly the four fallback questions templated on the
lower-cased topic title.  (The `generate-content` function persists the raw
list without this validation; see the counterexample.) -/
theorem c1_cross_questions_never_empty (parsed : JVal) (topicTitle : List Char)
    (topicId userId : Nat) (src : List Char) (row : VersionRow)
    (h : gtcVersionRow parsed topicTitle topicId userId src = some row) :
    ∃ qs, row.cross_questions = jarr qs ∧ qs ≠ [] ∧
      (filteredCrossQuestions parsed = [] → qs = fallbackQuestions topicTitle) := by
  refine ⟨processedCrossQuestions parsed topicTitle, ?_, processedCrossQuestions_ne_nil _ _, ?_⟩
  · cases parsed <;> simp [gtcVersionRow] at h <;> simp [← h]
  · intro hf
    unfold processedCrossQuestions
    simp [hf]

/-- Concrete instantiation of `c1_cross_questions_never_empty`. -/
theorem c1_cross_questions_never_empty_witness :
    ∃ qs, (VersionRow.mk 1 2 [] (jarr []) (jstr [])
        (jarr (fallbackQuestions "Apache Kafka".data))).cross_questions = jarr qs ∧ qs ≠ [] ∧
      (filteredCrossQuestions (jobj []) = [] → qs = fallbackQuestions "Apache Kafka".data) :=
  c1_cross_questions_never_empty (jobj []) "Apache Kafka".data 1 2 [] _ (by rfl)

/-- C1 (counterexample): the `generate-content` copy of `generateTopicContent`
persists a ContentVersion row whose `cross_questions` list is empty when the
model returned an empty candidate list — no fallback questions are
substituted, refuting the claim for that content-generation operation. -/
theorem c1_counterexample :
    (gcVersionRow c1BadParsed 1 2 []).map VersionRow.cross_questions = some (jarr []) := by
  rfl

/-! ## C5: the empty-sourceNotes scenario selects the wrong branch (corrected) -/

set_option maxRecDepth 40000 in
/-- C5 (counterexample): with input `topicTitle = "Apache Kafka"`,
`sourceNotes = ""`, the handler substitutes the 54-character default note,
`hasRealContent` classifies it as meaningful, and the generated prompt does
NOT contain the fabrication-guidance phrase — refuting the claim that the
"limited source" branch is selected. -/
theorem c5_counterexample :
    ¬ (occurs "Source content is limited".data
          (gtcUserPrompt "Apache Kafka".data (effectiveSourceNotes [])) = true ∧
       occurs "Use the specific details".data
          (gtcUserPrompt "Apache Kafka".data (effectiveSourceNotes [])) = false) := by
  intro h
  have e : occurs "Source content is limited".data
      (gtcUserPrompt "Apache Kafka".data (effectiveSourceNotes [])) = false := by rfl
  rw [h.1] at e
  exact Bool.noConfusion e

set_option maxRecDepth 40000 in
/-- C5 (amended): the input `{topicTitle: "Apache Kafka", sourceNotes: ""}`
causes the handler to substitute the default note, which `hasRealContent`
classifies as meaningful (it is 54 characters long and free of placeholder
markers), so the generated user prompt contains the "Use the specific
details" phrase and not the fabrication-guidance phrase. -/
theorem c5_default_notes_meaningful :
    gtcHasRealContent (effectiveSourceNotes []) = true ∧
    occurs "Use the specific details".data
        (gtcUserPrompt "Apache Kafka".data (effectiveSourceNotes [])) = true ∧
    occurs "Source content is limited".data
        (gtcUserPrompt "Apache Kafka".data (effectiveSourceNotes [])) = false := by
  exact ⟨rfl, rfl, rfl⟩

/-! ## C6: the Model Invoker result and failure contract (corrected) -/

/-- C6 (amended): the first `callOpenAI` copy behaves as the claim states:
a non-2xx response fails with an error carrying the HTTP status code; a 2xx
response yields the content of the first choice, or the literal string `"{}"`
when the (non-null) response body lacks that field. -/
theorem c6_call_openai_first_copy (resp : HttpResp) :
    (resp.ok = false → callOpenAIv1 resp = Except.error (CallError.apiStatus resp.status)) ∧
    (resp.ok = true → ∀ v, v ≠ jnull → optChainContent resp.body = some v →
        callOpenAIv1 resp = Except.ok v) ∧
    (resp.ok = true → resp.body ≠ jnull → optChainContent resp.body = none →
        callOpenAIv1 resp = Except.ok (jstr "\x7b\x7d".data)) := by
  refine ⟨fun h => by simp [callOpenAIv1, h], ?_, ?_⟩
  · intro hok v hv hchain
    have hbody : resp.body ≠ jnull := by
      intro hb
      rw [hb] at hchain
      simp [optChainContent, getField, optStep] at hchain
    unfold callOpenAIv1
    rw [hok]
    simp only [Bool.not_true, Bool.false_eq_true, if_false]
    cases hb : resp.body <;> simp_all [jsCoalesce]
  · intro hok hbody hchain
    unfold callOpenAIv1
    rw [hok]
    simp only [Bool.not_true, Bool.false_eq_true, if_false]
    cases hb : resp.body <;> simp_all [jsCoalesce]

/-- Concrete instantiation of `c6_call_openai_first_copy`. -/
theorem c6_call_openai_first_copy_witness :
    callOpenAIv1 (HttpResp.mk false 429 (jobj [])) =
      Except.error (CallError.apiStatus 429) ∧
    callOpenAIv1 (HttpResp.mk true 200 (jobj [])) = Except.ok (jstr "\x7b\x7d".data) :=
  ⟨(c6_call_openai_first_copy (HttpResp.mk false 429 (jobj []))).1 rfl,
   (c6_call_openai_first_copy (HttpResp.mk true 200 (jobj []))).2.2 rfl
     (by intro h; exact JVal.noConfusion h) rfl⟩

/-- C6 (counterexample): the second `callOpenAI` copy violates the claim on
both counts: a 429 response fails with an error carrying only the upstream
message — not the HTTP status code — and a 2xx response lacking
`choices[0].message.content` throws instead of returning `"{}"`. -/
theorem c6_counterexample :
    callOpenAIv2 resp429 = Except.error (CallError.apiMessage (jstr "Rate limited".data)) ∧
    (match callOpenAIv2 resp429 with
     | Except.error e => carriesStatus e
     | Except.ok _ => true) = false ∧
    callOpenAIv2 respOkEmpty = Except.error CallError.typeError := by
  exact ⟨rfl, rfl, rfl⟩

/-! ## C7: the pointer upsert runs only after a successful insert -/

/-- C7 (confirmed): in the shared persistence phase of
`generate-topic-content` and `create-custom-topic`, a failed ContentVersion
insert raises (no version id is produced) and leaves the pointer table — and
the store as a whole — unchanged; only a successful insert reaches the
pointer upsert, and the upserted row references exactly the id returned by
the insert, whose row is in the store. -/
theorem c7_upsert_only_after_insert (db : DB) (row : VersionRow) :
    (persistContentVersion false db row).1 = none ∧
    (persistContentVersion false db row).2 = db ∧
    (∀ vid, (persistContentVersion true db row).1 = some vid →
      (persistContentVersion true db row).2.pointers.getLast? =
          some (row.topic_id, vid, row.user_id) ∧
      (vid, row) ∈ (persistContentVersion true db row).2.versions) := by
  refine ⟨rfl, rfl, ?_⟩
  intro vid hvid
  simp only [persistContentVersion, if_pos] at hvid ⊢
  obtain rfl : db.nextVersionId = vid := by simpa using hvid
  constructor
  · simp [upsertPointer]
  · simp [upsertPointer]

/-- Concrete instantiation of `c7_upsert_only_after_insert`. -/
theorem c7_upsert_only_after_insert_witness :
    (persistContentVersion true (DB.mk [] [] [] 0 5)
        (VersionRow.mk 3 4 [] (jarr []) (jstr []) (jarr []))).2.pointers.getLast? =
      some (3, 5, 4) :=
  ((c7_upsert_only_after_insert (DB.mk [] [] [] 0 5)
      (VersionRow.mk 3 4 [] (jarr []) (jstr []) (jarr []))).2.2 5 rfl).1

/-! ## C10: sort-order assignment strictly dominates prior topics -/

/-- C10 (confirmed): `create-custom-topic` assigns `sort_order` 1 when the
owner has no topics, and one more than the owner's current maximum otherwise,
so the new value is strictly greater than the `sort_order` of every existing
topic of that owner. -/
theorem c10_sort_order_dominates (rows : List TopicRow) (uid : Nat) :
    (rows.filter (fun r => decide (r.user_id = uid)) = [] → nextSortOrder rows uid = 1) ∧
    (∀ r ∈ rows, r.user_id = uid → r.sort_order < nextSortOrder rows uid) := by
  constructor
  · intro h
    simp [nextSortOrder, maxSortQuery, h]
  · intro r hr hru
    have hmem : r ∈ rows.filter (fun r => decide (r.user_id = uid)) := by
      simp [List.mem_filter, hr, hru]
    set l := rows.filter (fun r => decide (r.user_id = uid)) with hl
    set le : TopicRow → TopicRow → Bool := fun a b => decide (b.sort_order ≤ a.sort_order) with hle
    have htrans : ∀ a b c : TopicRow, le a b → le b c → le a c := by
      intro a b c hab hbc
      simp only [hle, decide_eq_true_eq] at hab hbc ⊢
      omega
    have htotal : ∀ a b : TopicRow, le a b || le b a := by
      intro a b
      simp only [hle, Bool.or_eq_true, decide_eq_true_eq]
      omega
    have hsorted : (l.mergeSort le).Pairwise (le · ·) :=
      List.sorted_mergeSort htrans htotal l
    have hmem2 : r ∈ l.mergeSort le := ((List.mergeSort_perm l le).mem_iff).mpr hmem
    obtain ⟨h0, t, he⟩ : ∃ h0 t, l.mergeSort le = h0 :: t := by
      cases hms : l.mergeSort le with
      | nil => rw [hms] at hmem2; cases hmem2
      | cons a t => exact ⟨a, t, rfl⟩
    have hnext : nextSortOrder rows uid = h0.sort_order + 1 := by
      unfold nextSortOrder maxSortQuery
      rw [← hl, ← hle, he]
      rfl
    rw [hnext]
    rw [he] at hmem2 hsorted
    rcases List.mem_cons.mp hmem2 with rfl | hmem3
    · omega
    · have := (List.pairwise_cons.mp hsorted).1 r hmem3
      simp only [hle, decide_eq_true_eq] at this
      omega

/-- Concrete instantiation of `c10_sort_order_dominates`. -/
theorem c10_sort_order_dominates_witness :
    (TopicRow.mk 1 7 [] [] [] [] [] 5).sort_order <
      nextSortOrder [TopicRow.mk 1 7 [] [] [] [] [] 5] 7 :=
  (c10_sort_order_dominates [TopicRow.mk 1 7 [] [] [] [] [] 5] 7).2
    (TopicRow.mk 1 7 [] [] [] [] [] 5) (by simp) rfl

/-! ## C8: slug derivation is idempotent -/

lemma isLowerAlnum_ne_hyphen {c : Char} (h : isLowerAlnum c = true) : ¬ c = '-' := by
  intro hc
  subst hc
  simp [isLowerAlnum] at h

lemma toLower_fixed {c : Char} (h : (isLowerAlnum c || (c = '-' : Bool)) = true) :
    Char.toLower c = c := by
  have hn : (97 ≤ c.toNat ∧ c.toNat ≤ 122) ∨ (48 ≤ c.toNat ∧ c.toNat ≤ 57) ∨ c = '-' := by
    simpa [isLowerAlnum, decide_eq_true_eq, Bool.or_eq_true, Bool.and_eq_true,
      or_assoc] using h
  have hb : ¬(c.toNat ≥ 65 ∧ c.toNat ≤ 90) := by
    rcases hn with h1 | h2 | h3
    · omega
    · omega
    · subst h3; decide
  simp only [Char.toLower]
  exact if_neg hb

lemma slugChars_cons {c : Char} {rest : List Char} (h : slugChars (c :: rest) = true) :
    (isLowerAlnum c || (c = '-' : Bool)) = true ∧ slugChars rest = true := by
  by_cases hc : c = '-'
  · subst hc
    unfold slugChars at h
    rw [if_pos rfl, Bool.and_eq_true] at h
    simp [h.2]
  · unfold slugChars at h
    rw [if_neg hc, Bool.and_eq_true] at h
    simp [h.1, h.2]

lemma collapseRuns_cons_alnum {c : Char} (h : isLowerAlnum c = true)
    (b : Bool) (cs : List Char) :
    collapseRuns b (c :: cs) = c :: collapseRuns false cs := by
  conv_lhs => unfold collapseRuns
  rw [h]
  simp

lemma collapseRuns_cons_hyphen (cs : List Char) :
    collapseRuns false ('-' :: cs) = '-' :: collapseRuns true cs := by
  conv_lhs => unfold collapseRuns
  rw [show isLowerAlnum '-' = false by decide]
  simp

lemma slugChars_all {l : List Char} (h : slugChars l = true) :
    ∀ c ∈ l, (isLowerAlnum c || (c = '-' : Bool)) = true := by
  induction l with
  | nil => simp
  | cons c rest ih =>
    intro x hx
    rcases List.mem_cons.mp hx with rfl | hx'
    · exact (slugChars_cons h).1
    · exact ih (slugChars_cons h).2 x hx'

lemma lowerL_fixed {l : List Char} (h : ∀ c ∈ l, (isLowerAlnum c || (c = '-' : Bool)) = true) :
    lowerL l = l := by
  induction l with
  | nil => rfl
  | cons c rest ih =>
    unfold lowerL
    simp only [List.map_cons]
    rw [toLower_fixed (h c (List.mem_cons_self c rest))]
    have : lowerL rest = rest := ih (fun x hx => h x (List.mem_cons_of_mem c hx))
    unfold lowerL at this
    rw [this]

lemma collapseRuns_fixed {l : List Char} (h : slugChars l = true) :
    collapseRuns false l = l := by
  induction l with
  | nil => rfl
  | cons c rest ih =>
    by_cases hc : c = '-'
    · subst hc
      unfold slugChars at h
      rw [if_pos rfl, Bool.and_eq_true] at h
      cases rest with
      | nil => simp at h
      | cons d rest' =>
        have hd : isLowerAlnum d = true := h.1
        have hrest := ih h.2
        rw [collapseRuns_cons_alnum hd] at hrest
        have hrest' : collapseRuns false rest' = rest' := by simpa using hrest
        rw [collapseRuns_cons_hyphen, collapseRuns_cons_alnum hd, hrest']
    · have hca := (slugChars_cons h).1
      have hc' : isLowerAlnum c = true := by
        rcases Bool.or_eq_true_iff.mp hca with h1 | h2
        · exact h1
        · exact absurd (by simpa [decide_eq_true_eq] using h2) hc
      rw [collapseRuns_cons_alnum hc', ih (slugChars_cons h).2]

lemma slugChars_getLast {l : List Char} (h : slugChars l = true) :
    ¬ l.getLast? = some '-' := by
  induction l with
  | nil => simp
  | cons c rest ih =>
    cases rest with
    | nil =>
      by_cases hc : c = '-'
      · subst hc; unfold slugChars at h; simp at h
      · have := (slugChars_cons h).1
        have hc' : isLowerAlnum c = true := by
          rcases Bool.or_eq_true_iff.mp this with h1 | h2
          · exact h1
          · exact absurd (by simpa [decide_eq_true_eq] using h2) hc
        simp only [List.getLast?_singleton, Option.some.injEq]
        intro hcc
        exact isLowerAlnum_ne_hyphen hc' hcc
    | cons d rest' =>
      have := ih (slugChars_cons h).2
      rwa [List.getLast?_cons_cons]

lemma trimHyphens_fixed {l : List Char} (hhead : ¬ l.head? = some '-')
    (hlast : ¬ l.getLast? = some '-') : trimHyphens l = l := by
  unfold trimHyphens
  have h1 : l.dropWhile (fun c => c = '-') = l := by
    cases l with
    | nil => rfl
    | cons c rest =>
      apply List.dropWhile_cons_of_neg
      simp only [List.head?_cons, Option.some.injEq] at hhead
      simpa using hhead
  rw [h1]
  have h2 : l.reverse.dropWhile (fun c => c = '-') = l.reverse := by
    cases hr : l.reverse with
    | nil => rfl
    | cons c rest =>
      apply List.dropWhile_cons_of_neg
      have : l.getLast? = some c := by
        rw [← List.head?_reverse, hr, List.head?_cons]
      simp only [this, Option.some.injEq] at hlast
      simpa using hlast
  rw [h2, List.reverse_reverse]

/-- Fixed point: a string already in slug form is unchanged by the slug
derivation. -/
lemma slugOfTitle_fixed {l : List Char} (h : isSlugForm l = true) : slugOfTitle l = l := by
  unfold isSlugForm at h
  simp only [Bool.and_eq_true] at h
  have hchars := h.2
  unfold slugOfTitle
  rw [lowerL_fixed (slugChars_all hchars), collapseRuns_fixed hchars]
  apply trimHyphens_fixed
  · cases l with
    | nil => simp
    | cons c rest =>
      simp only [List.head?_cons, Option.some.injEq]
      intro hc
      have := h.1
      rw [hc] at this
      simp at this
  · exact slugChars_getLast hchars

lemma noDD_tail {c : Char} {l : List Char} (h : noDD (c :: l) = true) : noDD l = true := by
  cases l with
  | nil => rfl
  | cons d rest =>
    unfold noDD at h
    rw [Bool.and_eq_true] at h
    exact h.2

lemma noDD_cons_of_head {c : Char} {l : List Char}
    (hh : ∀ d r, l = d :: r → ¬ d = '-') (hl : noDD l = true) : noDD (c :: l) = true := by
  cases l with
  | nil => rfl
  | cons d rest =>
    unfold noDD
    rw [Bool.and_eq_true]
    refine ⟨?_, hl⟩
    have := hh d rest rfl
    simp [this]

lemma noDD_cons_of_ne {c : Char} {l : List Char}
    (hc : ¬ c = '-') (hl : noDD l = true) : noDD (c :: l) = true := by
  cases l with
  | nil => rfl
  | cons d rest =>
    unfold noDD
    rw [Bool.and_eq_true]
    exact ⟨by simp [hc], hl⟩

lemma collapseRuns_chars (l : List Char) (b : Bool) :
    ∀ c ∈ collapseRuns b l, (isLowerAlnum c || (c = '-' : Bool)) = true := by
  induction l generalizing b with
  | nil => simp [collapseRuns]
  | cons c cs ih =>
    intro x hx
    by_cases hc : isLowerAlnum c = true
    · rw [collapseRuns_cons_alnum hc] at hx
      rcases List.mem_cons.mp hx with rfl | hx'
      · simp [hc]
      · exact ih false x hx'
    · cases b with
      | true =>
        have : collapseRuns true (c :: cs) = collapseRuns true cs := by
          conv_lhs => unfold collapseRuns
          rw [Bool.not_eq_true] at hc
          rw [hc]
          simp
        rw [this] at hx
        exact ih true x hx
      | false =>
        have : collapseRuns false (c :: cs) = '-' :: collapseRuns true cs := by
          conv_lhs => unfold collapseRuns
          rw [Bool.not_eq_true] at hc
          rw [hc]
          simp
        rw [this] at hx
        rcases List.mem_cons.mp hx with rfl | hx'
        · simp
        · exact ih true x hx'

lemma collapseRuns_true_head (l : List Char) :
    collapseRuns true l = [] ∨
      ∃ d r, collapseRuns true l = d :: r ∧ isLowerAlnum d = true := by
  induction l with
  | nil => left; rfl
  | cons c cs ih =>
    by_cases hc : isLowerAlnum c = true
    · right
      exact ⟨c, collapseRuns false cs, collapseRuns_cons_alnum hc true cs, hc⟩
    · have : collapseRuns true (c :: cs) = collapseRuns true cs := by
        conv_lhs => unfold collapseRuns
        rw [Bool.not_eq_true] at hc
        rw [hc]
        simp
      rw [this]
      exact ih

lemma collapseRuns_noDD (l : List Char) (b : Bool) : noDD (collapseRuns b l) = true := by
  induction l generalizing b with
  | nil => rfl
  | cons c cs ih =>
    by_cases hc : isLowerAlnum c = true
    · rw [collapseRuns_cons_alnum hc]
      exact noDD_cons_of_ne (isLowerAlnum_ne_hyphen hc) (ih false)
    · cases b with
      | true =>
        have : collapseRuns true (c :: cs) = collapseRuns true cs := by
          conv_lhs => unfold collapseRuns
          rw [Bool.not_eq_true] at hc
          rw [hc]
          simp
        rw [this]
        exact ih true
      | false =>
        have : collapseRuns false (c :: cs) = '-' :: collapseRuns true cs := by
          conv_lhs => unfold collapseRuns
          rw [Bool.not_eq_true] at hc
          rw [hc]
          simp
        rw [this]
        refine noDD_cons_of_head ?_ (ih true)
        intro d r hdr hd
        rcases collapseRuns_true_head cs with h0 | ⟨d', r', he, hd'⟩
        · rw [h0] at hdr; cases hdr
        · rw [he] at hdr
          obtain ⟨rfl, -⟩ : d' = d ∧ r' = r := by
            constructor <;> [exact (List.cons.injEq _ _ _ _ ▸ hdr).1;
              exact (List.cons.injEq _ _ _ _ ▸ hdr).2]
          exact isLowerAlnum_ne_hyphen hd' hd

lemma noDD_suffix {l₂ l₁ : List Char} (h : l₂ <:+ l₁) (hn : noDD l₁ = true) :
    noDD l₂ = true := by
  obtain ⟨t, rfl⟩ := h
  induction t with
  | nil => exact hn
  | cons a t ih => exact ih (noDD_tail hn)

lemma noDD_prefix {l₁ : List Char} : ∀ {t : List Char}, noDD (l₁ ++ t) = true →
    noDD l₁ = true := by
  induction l₁ with
  | nil => intro t _; rfl
  | cons a l₁' ih =>
    intro t h
    cases l₁' with
    | nil => rfl
    | cons b l₁'' =>
      have h' : (!((a = '-' : Bool) && (b = '-' : Bool)) &&
          noDD (b :: (l₁'' ++ t))) = true := h
      rw [Bool.and_eq_true] at h'
      show (!((a = '-' : Bool) && (b = '-' : Bool)) && noDD (b :: l₁'')) = true
      rw [Bool.and_eq_true]
      exact ⟨h'.1, ih h'.2⟩

lemma dropWhile_head_not {p : Char → Bool} {l : List Char} {c : Char} {r : List Char}
    (h : l.dropWhile p = c :: r) : p c = false := by
  induction l with
  | nil => cases h
  | cons a l' ih =>
    by_cases ha : p a = true
    · rw [List.dropWhile_cons_of_pos ha] at h
      exact ih h
    · rw [List.dropWhile_cons_of_neg (by simpa using ha)] at h
      obtain rfl : a = c := (List.cons.injEq _ _ _ _ ▸ h).1
      simpa using ha

lemma slugChars_of {l : List Char}
    (hchars : ∀ c ∈ l, (isLowerAlnum c || (c = '-' : Bool)) = true)
    (hnoDD : noDD l = true) (hlast : ¬ l.getLast? = some '-') :
    slugChars l = true := by
  induction l with
  | nil => rfl
  | cons c rest ih =>
    by_cases hc : c = '-'
    · subst hc
      unfold slugChars
      rw [if_pos rfl, Bool.and_eq_true]
      cases rest with
      | nil => simp at hlast
      | cons d r =>
        constructor
        · have hd : ¬ d = '-' := by
            unfold noDD at hnoDD
            rw [Bool.and_eq_true] at hnoDD
            intro hd
            have := hnoDD.1
            simp [hd] at this
          have := hchars d (by simp)
          rcases Bool.or_eq_true_iff.mp this with h1 | h2
          · exact h1
          · exact absurd (by simpa [decide_eq_true_eq] using h2) hd
        · exact ih (fun x hx => hchars x (List.mem_cons_of_mem _ hx)) (noDD_tail hnoDD)
            (by rwa [List.getLast?_cons_cons] at hlast)
    · have hc' : isLowerAlnum c = true := by
        rcases Bool.or_eq_true_iff.mp (hchars c (List.mem_cons_self c rest)) with h1 | h2
        · exact h1
        · exact absurd (by simpa [decide_eq_true_eq] using h2) hc
      unfold slugChars
      rw [if_neg hc, Bool.and_eq_true]
      refine ⟨hc', ?_⟩
      cases rest with
      | nil => rfl
      | cons d r =>
        exact ih (fun x hx => hchars x (List.mem_cons_of_mem _ hx)) (noDD_tail hnoDD)
          (by rwa [List.getLast?_cons_cons] at hlast)

lemma slugOfTitle_isSlugForm (t : List Char) : isSlugForm (slugOfTitle t) = true := by
  unfold slugOfTitle trimHyphens
  set m := collapseRuns false (lowerL t) with hm
  set s1 := m.dropWhile (fun c => c = '-') with hs1
  set y := s1.reverse.dropWhile (fun c => c = '-') with hy
  have hchars_m : ∀ c ∈ m, (isLowerAlnum c || (c = '-' : Bool)) = true :=
    collapseRuns_chars (lowerL t) false
  have hnoDD_m : noDD m = true := collapseRuns_noDD (lowerL t) false
  have hsuf : s1 <:+ m := List.dropWhile_suffix _
  have hpre : y.reverse <+: s1 := by
    have h1 : y <:+ s1.reverse := List.dropWhile_suffix _
    have h2 : y.reverse.reverse <:+ s1.reverse := by rwa [List.reverse_reverse]
    exact List.reverse_suffix.mp h2
  have hchars : ∀ c ∈ y.reverse, (isLowerAlnum c || (c = '-' : Bool)) = true := by
    intro c hc
    exact hchars_m c (hsuf.subset (hpre.subset hc))
  have hnoDD : noDD y.reverse = true := by
    obtain ⟨u, hu⟩ := hpre
    exact noDD_prefix (hu ▸ noDD_suffix hsuf hnoDD_m)
  have hlast : ¬ y.reverse.getLast? = some '-' := by
    rw [List.getLast?_reverse]
    cases hyy : y with
    | nil => simp
    | cons c r =>
      rw [hyy] at hy
      have := dropWhile_head_not hy.symm
      simp only [List.head?_cons, Option.some.injEq]
      intro hcc
      rw [hcc] at this
      simp at this
  unfold isSlugForm
  rw [Bool.and_eq_true]
  constructor
  · cases hyr : y.reverse with
    | nil => rfl
    | cons c r =>
      have hp : s1 = c :: (s1.drop 1) := by
        obtain ⟨u, hu⟩ := hpre
        rw [hyr] at hu
        rw [← hu]
        rfl
      have := dropWhile_head_not (hs1.symm.trans hp)
      simp only [hyr]
      simpa using this
  · exact slugChars_of hchars hnoDD hlast

/-- C8 (confirmed): the slug derivation of `create-custom-topic` is
idempotent — `slug(slug(title)) = slug(title)` for every title — and every
string already in slug form (lower-case alphanumerics and single separating
hyphens, none leading or trailing) is returned unchanged. -/
theorem c8_slug_idempotent :
    (∀ title, slugOfTitle (slugOfTitle title) = slugOfTitle title) ∧
    (∀ l, isSlugForm l = true → slugOfTitle l = l) :=
  ⟨fun t => slugOfTitle_fixed (slugOfTitle_isSlugForm t),
   fun _ h => slugOfTitle_fixed h⟩

/-- Concrete instantiation of `c8_slug_idempotent`. -/
theorem c8_slug_idempotent_witness :
    isSlugForm "apache-kafka".data = true ∧
      slugOfTitle "apache-kafka".data = "apache-kafka".data :=
  ⟨by decide, c8_slug_idempotent.2 "apache-kafka".data (by decide)⟩

/-! ## C2 and C3: the batch creation loop -/

lemma selectSingleTopic_eq (db : DB) (uid : Nat) (slug : List Char) :
    selectSingleTopic db uid slug =
      (match keyFilter db.topics uid slug with
       | [r] => some r
       | _ => none) := rfl

lemma keyFilter_append (ts : List TopicRow) (row : TopicRow) (uid : Nat) (slug : List Char) :
    keyFilter (ts ++ [row]) uid slug =
      keyFilter ts uid slug ++
        (if row.user_id = uid ∧ row.slug = slug then [row] else []) := by
  unfold keyFilter
  rw [List.filter_append]
  congr 1
  by_cases h : row.user_id = uid ∧ row.slug = slug
  · simp [h]
  · simp [h]

lemma selectSingleTopic_none {db : DB} {uid : Nat} {slug : List Char}
    (hU : uniqueOwnerSlug db.topics) (h : selectSingleTopic db uid slug = none) :
    keyFilter db.topics uid slug = [] := by
  rw [selectSingleTopic_eq] at h
  cases hk : keyFilter db.topics uid slug with
  | nil => rfl
  | cons a t =>
    cases t with
    | nil => rw [hk] at h; cases h
    | cons b t' =>
      have := hU uid slug
      rw [hk] at this
      simp at this

lemma selectSingleTopic_some {db : DB} {uid : Nat} {slug : List Char} {r : TopicRow}
    (h : selectSingleTopic db uid slug = some r) :
    keyFilter db.topics uid slug = [r] := by
  rw [selectSingleTopic_eq] at h
  cases hk : keyFilter db.topics uid slug with
  | nil => rw [hk] at h; cases h
  | cons a t =>
    cases t with
    | nil =>
      rw [hk] at h
      obtain rfl : a = r := by simpa using h
      rfl
    | cons b t' => rw [hk] at h; cases h

lemma mem_of_keyFilter_singleton {ts : List TopicRow} {uid : Nat} {slug : List Char}
    {r : TopicRow} (h : keyFilter ts uid slug = [r]) : r ∈ ts := by
  have : r ∈ keyFilter ts uid slug := by rw [h]; simp
  exact List.mem_of_mem_filter this

lemma generateTopicContentTabs_topics (reply : AiReply) (db : DB) (tid uid : Nat)
    (src ttl : List Char) :
    (generateTopicContentTabs reply db tid uid src ttl).topics = db.topics := by
  unfold generateTopicContentTabs
  split
  · rfl
  · split
    · rfl
    · split
      · rfl
      · simp [upsertPointer]

lemma processProposal_topics_found {ai : Nat → AiReply} {uid : Nat} {content : List Char}
    {st : BatchState} {p : TopicProposal} {r : TopicRow}
    (h : selectSingleTopic st.db uid p.slug = some r) :
    (processProposal ai uid content st p).db.topics = st.db.topics := by
  unfold processProposal
  rw [h]
  dsimp only
  split
  · exact generateTopicContentTabs_topics _ _ _ _ _ _
  · rfl

lemma processProposal_topics_notfound {ai : Nat → AiReply} {uid : Nat} {content : List Char}
    {st : BatchState} {p : TopicProposal}
    (h : selectSingleTopic st.db uid p.slug = none) :
    (processProposal ai uid content st p).db.topics =
      st.db.topics ++ [newRowFor st uid p] := by
  unfold processProposal
  rw [h]
  dsimp only
  simp only [newRowFor]
  split
  · exact generateTopicContentTabs_topics _ _ _ _ _ _
  · rfl

lemma processProposal_created (ai : Nat → AiReply) (uid : Nat) (content : List Char)
    (st : BatchState) (p : TopicProposal) :
    ∃ tid, (processProposal ai uid content st p).created = st.created ++ [tid] ∧
      ∃ r ∈ (processProposal ai uid content st p).db.topics, r.id = tid := by
  cases hsel : selectSingleTopic st.db uid p.slug with
  | some r =>
    refine ⟨r.id, ?_, r, ?_, rfl⟩
    · unfold processProposal
      rw [hsel]
      dsimp only
      split <;> rfl
    · rw [processProposal_topics_found hsel]
      exact mem_of_keyFilter_singleton (selectSingleTopic_some hsel)
  | none =>
    refine ⟨st.db.nextTopicId, ?_, newRowFor st uid p, ?_, rfl⟩
    · unfold processProposal
      rw [hsel]
      dsimp only
      split <;> rfl
    · rw [processProposal_topics_notfound hsel]
      simp [newRowFor]

lemma processProposal_invariants {ai : Nat → AiReply} {uid : Nat} {content : List Char}
    (st : BatchState) (p : TopicProposal) (hU : uniqueOwnerSlug st.db.topics) :
    uniqueOwnerSlug (processProposal ai uid content st p).db.topics ∧
    (∀ uid' slug', (keyFilter st.db.topics uid' slug').length ≤
        (keyFilter (processProposal ai uid content st p).db.topics uid' slug').length) ∧
    1 ≤ (keyFilter (processProposal ai uid content st p).db.topics uid p.slug).length := by
  cases hsel : selectSingleTopic st.db uid p.slug with
  | some r =>
    rw [show (processProposal ai uid content st p).db.topics = st.db.topics from
      processProposal_topics_found hsel]
    refine ⟨hU, fun _ _ => le_refl _, ?_⟩
    rw [selectSingleTopic_some hsel]
    simp
  | none =>
    have hkey : keyFilter st.db.topics uid p.slug = [] := selectSingleTopic_none hU hsel
    rw [show (processProposal ai uid content st p).db.topics =
        st.db.topics ++ [newRowFor st uid p] from processProposal_topics_notfound hsel]
    refine ⟨?_, ?_, ?_⟩
    · intro uid' slug'
      rw [keyFilter_append]
      by_cases hm : (newRowFor st uid p).user_id = uid' ∧ (newRowFor st uid p).slug = slug'
      · have : uid' = uid ∧ slug' = p.slug := by
          obtain ⟨h1, h2⟩ := hm
          simp [newRowFor] at h1 h2
          exact ⟨h1.symm, h2.symm⟩
        obtain ⟨rfl, rfl⟩ := this
        rw [hkey, if_pos hm]
        simp
      · rw [if_neg hm]
        simpa using hU uid' slug'
    · intro uid' slug'
      rw [keyFilter_append]
      simp
    · rw [keyFilter_append, hkey]
      have : (newRowFor st uid p).user_id = uid ∧ (newRowFor st uid p).slug = p.slug := by
        simp [newRowFor]
      rw [if_pos this]
      simp

lemma foldl_batch_invariants (ai : Nat → AiReply) (uid : Nat) (content : List Char) :
    ∀ (ps : List TopicProposal) (st : BatchState), uniqueOwnerSlug st.db.topics →
      uniqueOwnerSlug (ps.foldl (processProposal ai uid content) st).db.topics ∧
      (∀ uid' slug', (keyFilter st.db.topics uid' slug').length ≤
          (keyFilter (ps.foldl (processProposal ai uid content) st).db.topics uid' slug').length) ∧
      (∀ p ∈ ps,
        1 ≤ (keyFilter (ps.foldl (processProposal ai uid content) st).db.topics uid p.slug).length) := by
  intro ps
  induction ps with
  | nil => exact fun st hU => ⟨hU, fun _ _ => le_refl _, by simp⟩
  | cons p ps' ih =>
    intro st hU
    obtain ⟨hU1, hmono1, hp1⟩ := @processProposal_invariants ai uid content st p hU
    obtain ⟨hU', hmono', hall'⟩ := ih (processProposal ai uid content st p) hU1
    refine ⟨hU', ?_, ?_⟩
    · intro uid' slug'
      exact le_trans (hmono1 uid' slug') (hmono' uid' slug')
    · intro q hq
      rcases List.mem_cons.mp hq with rfl | hq'
      · exact le_trans hp1 (hmono' uid q.slug)
      · exact hall' q hq'

lemma foldl_batch_noop (ai2 : Nat → AiReply) (uid : Nat) (content : List Char) :
    ∀ (ps : List TopicProposal) (st : BatchState), uniqueOwnerSlug st.db.topics →
      (∀ p ∈ ps, 1 ≤ (keyFilter st.db.topics uid p.slug).length) →
      (ps.foldl (processProposal ai2 uid content) st).db.topics = st.db.topics := by
  intro ps
  induction ps with
  | nil => intro st _ _; rfl
  | cons p ps' ih =>
    intro st hU hall
    have h1 : (keyFilter st.db.topics uid p.slug).length = 1 :=
      le_antisymm (hU uid p.slug) (hall p (List.mem_cons_self p ps'))
    obtain ⟨r, hr⟩ := List.length_eq_one.mp h1
    have hsel : selectSingleTopic st.db uid p.slug = some r := by
      rw [selectSingleTopic_eq, hr]
    have htop : (processProposal ai2 uid content st p).db.topics = st.db.topics :=
      processProposal_topics_found hsel
    rw [List.foldl_cons, ih (processProposal ai2 uid content st p)
      (by rw [htop]; exact hU)
      (by rw [htop]; exact fun q hq => hall q (List.mem_cons_of_mem p hq)), htop]

/-- C2 (confirmed): running the duplicate-checking batch-creation loop twice
in sequence against the same owner leaves exactly the same topic rows after
the second run as after the first — under the table's `(user_id, slug)`
uniqueness constraint, every proposal of the second run is found by the
by-slug lookup and reused, so no row is inserted.  The two runs may receive
arbitrary (even different) model replies. -/
theorem c2_batch_creation_idempotent (ai ai2 : Nat → AiReply) (db : DB) (uid : Nat)
    (content : List Char) (ps : List TopicProposal) (hU : uniqueOwnerSlug db.topics) :
    (handleGenerateTabs ai2 (handleGenerateTabs ai db uid content ps).db uid content ps).db.topics
      = (handleGenerateTabs ai db uid content ps).db.topics := by
  unfold handleGenerateTabs
  obtain ⟨hU', -, hall'⟩ := foldl_batch_invariants ai uid content ps
    (BatchState.mk db [] 0) hU
  exact foldl_batch_noop ai2 uid content ps
    (BatchState.mk (ps.foldl (processProposal ai uid content) (BatchState.mk db [] 0)).db [] 0)
    hU' hall'

/-- Concrete instantiation of `c2_batch_creation_idempotent`. -/
theorem c2_batch_creation_idempotent_witness :
    (handleGenerateTabs (fun _ => AiReply.mk false [])
        (handleGenerateTabs (fun _ => AiReply.mk false []) (DB.mk [] [] [] 0 0) 7 []
          [TopicProposal.mk "T1".data "t1".data [] [] [] 1]).db 7 []
        [TopicProposal.mk "T1".data "t1".data [] [] [] 1]).db.topics
      = (handleGenerateTabs (fun _ => AiReply.mk false []) (DB.mk [] [] [] 0 0) 7 []
          [TopicProposal.mk "T1".data "t1".data [] [] [] 1]).db.topics :=
  c2_batch_creation_idempotent (fun _ => AiReply.mk false []) (fun _ => AiReply.mk false [])
    (DB.mk [] [] [] 0 0) 7 [] [TopicProposal.mk "T1".data "t1".data [] [] [] 1]
    (fun uid slug => by simp [keyFilter])

/-- C3 (amended): the batch response's `topics` list carries one reference
per proposed topic — reused or new — but `topicsCreated` is the length of
that same list, so it counts reused topics as well, not only newly inserted
rows. -/
theorem c3_topics_list_complete (ai : Nat → AiReply) (db : DB) (uid : Nat)
    (content : List Char) (ps : List TopicProposal) :
    tabsTopicsCreated (handleGenerateTabs ai db uid content ps) = ps.length ∧
    (∀ tid ∈ (handleGenerateTabs ai db uid content ps).created,
       ∃ r ∈ (handleGenerateTabs ai db uid content ps).db.topics, r.id = tid) := by
  have main : ∀ (ps' : List TopicProposal) (st : BatchState),
      (∀ tid ∈ st.created, ∃ r ∈ st.db.topics, r.id = tid) →
      (ps'.foldl (processProposal ai uid content) st).created.length
          = st.created.length + ps'.length ∧
      (∀ tid ∈ (ps'.foldl (processProposal ai uid content) st).created,
         ∃ r ∈ (ps'.foldl (processProposal ai uid content) st).db.topics, r.id = tid) := by
    intro ps'
    induction ps' with
    | nil => exact fun st h => ⟨rfl, h⟩
    | cons p ps'' ih =>
      intro st hinv
      obtain ⟨tid, hcr, r, hrmem, hrid⟩ := processProposal_created ai uid content st p
      have hmono : ∀ x ∈ st.db.topics, x ∈ (processProposal ai uid content st p).db.topics := by
        intro x hx
        cases hsel : selectSingleTopic st.db uid p.slug with
        | some r' => rw [processProposal_topics_found hsel]; exact hx
        | none => rw [processProposal_topics_notfound hsel]; exact List.mem_append_left _ hx
      have hinv1 : ∀ t ∈ (processProposal ai uid content st p).created,
          ∃ x ∈ (processProposal ai uid content st p).db.topics, x.id = t := by
        intro t ht
        rw [hcr] at ht
        rcases List.mem_append.mp ht with h1 | h2
        · obtain ⟨x, hx, hxid⟩ := hinv t h1
          exact ⟨x, hmono x hx, hxid⟩
        · obtain rfl : t = tid := by simpa using h2
          exact ⟨r, hrmem, hrid⟩
      obtain ⟨hlen, hids⟩ := ih (processProposal ai uid content st p) hinv1
      constructor
      · rw [List.foldl_cons, hlen, hcr]
        simp
        omega
      · exact hids
  obtain ⟨hlen, hids⟩ := main ps (BatchState.mk db [] 0) (by simp)
  exact ⟨by simpa [tabsTopicsCreated, handleGenerateTabs] using hlen, hids⟩

/-- Concrete instantiation of `c3_topics_list_complete`. -/
theorem c3_topics_list_complete_witness :
    tabsTopicsCreated (handleGenerateTabs (fun _ => AiReply.mk false [])
      (DB.mk [] [] [] 0 0) 7 [] [TopicProposal.mk "T1".data "t1".data [] [] [] 1]) = 1 :=
  (c3_topics_list_complete (fun _ => AiReply.mk false []) (DB.mk [] [] [] 0 0) 7 []
    [TopicProposal.mk "T1".data "t1".data [] [] [] 1]).1

/-- C3 (counterexample): in an eight-topic batch whose fifth slug collides
with a pre-existing topic of the same owner, only seven rows are inserted,
yet the response's `topicsCreated` is 8 — the count includes the reused
topic, refuting the claim that it counts newly inserted rows only.  (The
`topics` list does carry all eight references.) -/
theorem c3_counterexample :
    tabsTopicsCreated c3Run = 8 ∧
    c3Run.db.topics.length - c3DB.topics.length = 7 ∧
    ¬ tabsTopicsCreated c3Run = c3Run.db.topics.length - c3DB.topics.length := by
  refine ⟨by rfl, by rfl, by decide⟩

/-! ## C4 and C9: the Response Parser -/

/-- C4 (counterexample): the input consisting of a fenced JSON array —
`[1, 2]` inside a triple-backtick fence with a `json` tag — has a valid-JSON
body, yet the parser raises the invalid-format error instead of returning
the parse of the body with the fence stripped: the fallback pattern only
captures brace-delimited bodies. -/
theorem c4_counterexample :
    jsonParse "[1, 2]".data = some (jarr [jnum ['1'], jnum ['2']]) ∧
    parseAIResponse c4Input "topic content generation".data =
      Except.error ("Invalid response format from AI for topic content generation".data) := by
  exact ⟨rfl, rfl⟩

/-- C9 (counterexample): an input that is not directly valid JSON and whose
fenced body is a JSON array does not always make the parser raise the
invalid-format error: when the array holds a string containing a brace pair
between backtick runs, the lazy fence pattern matches inside it and the
parser returns that inner object instead of failing. -/
theorem c9_counterexample :
    jsonParse c9Input = none ∧
    jsonParse c9Body =
      some (jarr [jnum ['1'], jstr "\x60\x60\x60 \x7b \x7d \x60\x60\x60".data]) ∧
    parseAIResponse c9Input "AI response".data = Except.ok (jobj []) := by
  exact ⟨rfl, rfl, rfl⟩

lemma isSp_spec {c : Char} (h : isSp c = true) :
    c = ' ' ∨ c = '\t' ∨ c = '\n' ∨ c = '\r' ∨ c = '\x0c' ∨ c = '\x0b' := by
  simpa [isSp, Bool.or_eq_true, decide_eq_true_eq, or_assoc] using h

lemma isWS_to_isSp {c : Char} (h : isWS c = true) : isSp c = true := by
  have : c = ' ' ∨ c = '\t' ∨ c = '\n' ∨ c = '\r' := by
    simpa [isWS, Bool.or_eq_true, decide_eq_true_eq, or_assoc] using h
  rcases this with rfl | rfl | rfl | rfl <;> decide

lemma isSp_ne_bt {c : Char} (h : isSp c = true) : ¬ c = bt := by
  rcases isSp_spec h with rfl | rfl | rfl | rfl | rfl | rfl <;> decide

lemma isSp_ne_j {c : Char} (h : isSp c = true) : ¬ c = 'j' := by
  rcases isSp_spec h with rfl | rfl | rfl | rfl | rfl | rfl <;> decide

lemma startsBT_false_head {c : Char} (l : List Char) (hc : ¬ c = bt) :
    startsBT (c :: l) = false := by
  cases l with
  | nil => rfl
  | cons b l2 =>
    cases l2 with
    | nil => rfl
    | cons d l3 => simp [startsBT, hc]

lemma startsJsonTag_false_head {c : Char} (l : List Char) (hc : ¬ c = 'j') :
    startsJsonTag (c :: l) = false := by
  unfold startsJsonTag
  split
  · rename_i heq
    injection heq with h1 _
    exact absurd h1 hc
  · rfl

lemma tryFence_none_head {c : Char} (l : List Char) (hc : ¬ c = bt) :
    tryFence (c :: l) = none := by
  unfold tryFence
  rw [startsBT_false_head l hc]
  simp

lemma fenceScan_cons_none {c : Char} {l : List Char}
    (h : tryFence (c :: l) = none) : fenceScan (c :: l) = fenceScan l := by
  calc fenceScan (c :: l)
      = (match tryFence (c :: l) with
         | some cap => some cap
         | none => fenceScan l) := rfl
    _ = fenceScan l := by rw [h]

lemma fenceScan_append_no_bt {xs : List Char} (rest : List Char)
    (h : ∀ c ∈ xs, ¬ c = bt) : fenceScan (xs ++ rest) = fenceScan rest := by
  induction xs with
  | nil => rfl
  | cons c xs' ih =>
    rw [List.cons_append,
      fenceScan_cons_none (tryFence_none_head _ (h c (List.mem_cons_self c xs')))]
    exact ih (fun x hx => h x (List.mem_cons_of_mem c hx))

lemma fenceScan_none_no_bt {xs : List Char} (h : ∀ c ∈ xs, ¬ c = bt) :
    fenceScan xs = none := by
  have := @fenceScan_append_no_bt xs [] h
  rwa [List.append_nil] at this

lemma mem_of_mem_dropWhile {p : Char → Bool} {l : List Char} {c : Char}
    (h : c ∈ l.dropWhile p) : c ∈ l :=
  (List.dropWhile_suffix p).subset h

lemma dropWhile_all_sp {l : List Char} (h : ∀ c ∈ l, isSp c = true) :
    l.dropWhile isSp = [] := by
  induction l with
  | nil => rfl
  | cons c l' ih =>
    rw [List.dropWhile_cons_of_pos (h c (List.mem_cons_self c l'))]
    exact ih (fun x hx => h x (List.mem_cons_of_mem c hx))

lemma dropWhile_head_no_bt {A Z : List Char} {z : Char} (hA : ∀ c ∈ A, ¬ c = bt)
    (hz : isSp z = false) (hzbt : ¬ z = bt) :
    startsBT ((A ++ z :: Z).dropWhile isSp) = false := by
  rw [List.dropWhile_append]
  split
  · rw [List.dropWhile_cons_of_neg (by simp [hz])]
    exact startsBT_false_head Z hzbt
  · rename_i hne
    cases hd : A.dropWhile isSp with
    | nil => rw [hd] at hne; simp at hne
    | cons d u =>
      rw [List.cons_append]
      have hmem : d ∈ A.dropWhile isSp := by rw [hd]; exact List.mem_cons_self d u
      exact startsBT_false_head _ (hA d (mem_of_mem_dropWhile hmem))

lemma lazyScan_run {mid : List Char} (hmid : ∀ c ∈ mid, ¬ c = bt)
    {w3 w4 : List Char} (hw3 : ∀ c ∈ w3, isSp c = true) :
    ∀ acc, lazyScan acc (mid ++ '}' :: (w3 ++ bt :: bt :: bt :: w4)) =
      some ('{' :: (acc.reverse ++ (mid ++ ['}']))) := by
  induction mid with
  | nil =>
    intro acc
    rw [List.nil_append]
    unfold lazyScan
    have hbt : startsBT ((w3 ++ bt :: bt :: bt :: w4).dropWhile isSp) = true := by
      rw [List.dropWhile_append_of_pos hw3,
        List.dropWhile_cons_of_neg (by simp [isSp, bt, Char.ofNat])]
      simp [startsBT]
    rw [hbt]
    simp
  | cons c mid' ih =>
    intro acc
    rw [List.cons_append]
    unfold lazyScan
    have hcond : ((c = '}' : Bool) &&
        startsBT ((mid' ++ '}' :: (w3 ++ bt :: bt :: bt :: w4)).dropWhile isSp)) = false := by
      by_cases hc : c = '}'
      · have : startsBT ((mid' ++ '}' :: (w3 ++ bt :: bt :: bt :: w4)).dropWhile isSp)
            = false :=
          dropWhile_head_no_bt (fun x hx => hmid x (List.mem_cons_of_mem c hx))
            (by decide) (by decide)
        simp [this]
      · simp [hc]
    rw [hcond]
    simp only [Bool.false_eq_true, if_false]
    rw [ih (fun x hx => hmid x (List.mem_cons_of_mem c hx)) (c :: acc)]
    simp

lemma tryBody_core {w2 mid w3 w4 : List Char} (hw2 : ∀ c ∈ w2, isSp c = true)
    (hw3 : ∀ c ∈ w3, isSp c = true) (hmid : ∀ c ∈ mid, ¬ c = bt) :
    tryBody (w2 ++ ('{' :: (mid ++ '}' :: (w3 ++ bt :: bt :: bt :: w4)))) =
      some ('{' :: (mid ++ ['}'])) := by
  unfold tryBody
  rw [List.dropWhile_append_of_pos hw2,
    List.dropWhile_cons_of_neg (by decide)]
  show lazyScan [] (mid ++ '}' :: (w3 ++ bt :: bt :: bt :: w4)) =
    some ('{' :: (mid ++ ['}']))
  rw [lazyScan_run hmid hw3 []]
  simp

lemma tryFence_open {tag : Bool} {w2 mid w3 w4 : List Char}
    (hw2 : ∀ c ∈ w2, isSp c = true) (hw3 : ∀ c ∈ w3, isSp c = true)
    (hmid : ∀ c ∈ mid, ¬ c = bt) :
    tryFence (bt :: bt :: bt ::
        (tagChars tag ++ (w2 ++ ('{' :: (mid ++ '}' :: (w3 ++ bt :: bt :: bt :: w4)))))) =
      some ('{' :: (mid ++ ['}'])) := by
  unfold tryFence
  rw [show startsBT (bt :: bt :: bt ::
      (tagChars tag ++ (w2 ++ ('{' :: (mid ++ '}' :: (w3 ++ bt :: bt :: bt :: w4)))))) = true by
    simp [startsBT]]
  simp only [if_pos, List.drop_succ_cons, List.drop_zero]
  cases tag with
  | true =>
    rw [show tagChars true = 'j' :: 's' :: 'o' :: 'n' :: [] from rfl]
    rw [List.cons_append, List.cons_append, List.cons_append, List.cons_append,
      List.nil_append]
    rw [show startsJsonTag ('j' :: 's' :: 'o' :: 'n' ::
        (w2 ++ ('{' :: (mid ++ '}' :: (w3 ++ bt :: bt :: bt :: w4))))) = true from rfl]
    simp only [if_pos, List.drop_succ_cons, List.drop_zero]
    rw [tryBody_core hw2 hw3 hmid]
  | false =>
    rw [show tagChars false = [] from rfl, List.nil_append]
    have hjt : startsJsonTag (w2 ++ ('{' :: (mid ++ '}' :: (w3 ++ bt :: bt :: bt :: w4))))
        = false := by
      cases w2 with
      | nil => rfl
      | cons c w2' =>
        rw [List.cons_append]
        exact startsJsonTag_false_head _ (isSp_ne_j (hw2 c (List.mem_cons_self c w2')))
    rw [hjt]
    simp only [Bool.false_eq_true, if_false]
    exact tryBody_core hw2 hw3 hmid

lemma fenceScan_cons3 {R : List Char} (h1 : tryFence (bt :: bt :: bt :: R) = none)
    (h2 : R = [] ∨ ∃ d R', R = d :: R' ∧ ¬ d = bt) :
    fenceScan (bt :: bt :: bt :: R) = fenceScan R := by
  rw [fenceScan_cons_none h1]
  have hbbr : tryFence (bt :: bt :: R) = none := by
    unfold tryFence
    have : startsBT (bt :: bt :: R) = false := by
      rcases h2 with rfl | ⟨d, R', rfl, hd⟩
      · rfl
      · simp [startsBT, hd]
    rw [this]
    simp
  rw [fenceScan_cons_none hbbr]
  have hbr : tryFence (bt :: R) = none := by
    unfold tryFence
    have : startsBT (bt :: R) = false := by
      rcases h2 with rfl | ⟨d, R', rfl, hd⟩
      · rfl
      · cases R' with
        | nil => rfl
        | cons e R'' => simp [startsBT, hd]
    rw [this]
    simp
  rw [fenceScan_cons_none hbr]

lemma parseObj_shape : ∀ {fuel : Nat} {l : List Char} {v : JVal} {rest : List Char},
    parseObj fuel l = some (v, rest) → ∃ fs, v = jobj fs := by
  intro fuel l v rest h
  cases fuel with
  | zero => exact absurd h (by simp [parseObj])
  | succ fuel =>
    unfold parseObj at h
    split at h
    · simp at h
      exact ⟨[], h.1.symm⟩
    · split at h
      · split at h
        · split at h
          · split at h
            · simp at h
              exact ⟨_, h.1.symm⟩
            · cases h
          · cases h
        · cases h
      · cases h
    · cases h

lemma parseIntPart_head {c : Char} {r : List Char} {x : List Char × List Char}
    (h : parseIntPart (c :: r) = some x) : isDigit c = true := by
  unfold parseIntPart at h
  dsimp only at h
  by_cases h0 : c = '0'
  · subst h0; decide
  · rw [if_neg h0] at h
    by_cases hd : isDigit c = true
    · exact hd
    · rw [if_neg hd] at h
      cases h

lemma parseNum_head {c : Char} {r : List Char} {x : List Char × List Char}
    (h : parseNum (c :: r) = some x) : c = '-' ∨ isDigit c = true := by
  by_cases hc : c = '-'
  · exact Or.inl hc
  · right
    unfold parseNum at h
    dsimp only at h
    rw [if_neg hc] at h
    unfold parseNumCore at h
    cases hip : parseIntPart (c :: r) with
    | none => rw [hip] at h; cases h
    | some y => exact parseIntPart_head hip

lemma parseNum_none {c : Char} (r : List Char) (h7 : ¬ c = '-')
    (h8 : isDigit c = false) : parseNum (c :: r) = none := by
  cases hn : parseNum (c :: r) with
  | none => rfl
  | some x =>
    rcases parseNum_head hn with hc | hd
    · exact absurd hc h7
    · rw [hd] at h8; cases h8

lemma parseVal_none_head {c : Char} {l r : List Char}
    (hdrop : l.dropWhile isWS = c :: r)
    (h1 : ¬ c = '{') (h2 : ¬ c = '[') (h3 : ¬ c = '"') (h4 : ¬ c = 't')
    (h5 : ¬ c = 'f') (h6 : ¬ c = 'n') (h7 : ¬ c = '-') (h8 : isDigit c = false) :
    ∀ n, parseVal (n + 1) l = none := by
  intro n
  unfold parseVal
  rw [hdrop]
  dsimp only
  rw [if_neg h1, if_neg h2, if_neg h3, if_neg h4, if_neg h5, if_neg h6,
    parseNum_none r h7 h8]

/-- No JSON value can begin after whitespace at a backtick: the first
non-whitespace character of the fenced inputs is a backtick (or a `\x0c` /
`\x0b`, which the JSON grammar rejects as well). -/
lemma parseVal_none_of_sp_bt {w1 : List Char} (rest : List Char)
    (hw1 : ∀ c ∈ w1, isSp c = true) :
    ∀ n, parseVal (n + 1) (w1 ++ bt :: rest) = none := by
  intro n
  cases hd : w1.dropWhile isWS with
  | nil =>
    have hdrop : (w1 ++ bt :: rest).dropWhile isWS = bt :: rest := by
      rw [List.dropWhile_append, hd]
      simp only [List.isEmpty_nil, if_true]
      exact List.dropWhile_cons_of_neg (by decide)
    exact parseVal_none_head hdrop (by decide) (by decide) (by decide) (by decide)
      (by decide) (by decide) (by decide) (by decide) n
  | cons d u =>
    have hdrop : (w1 ++ bt :: rest).dropWhile isWS = d :: (u ++ bt :: rest) := by
      rw [List.dropWhile_append, hd]
      simp
    have hd_sp : isSp d = true :=
      hw1 d (mem_of_mem_dropWhile (by rw [hd]; exact List.mem_cons_self d u))
    have hd_ws : isWS d = false := dropWhile_head_not hd
    have hdd : d = '\x0c' ∨ d = '\x0b' := by
      rcases isSp_spec hd_sp with rfl | rfl | rfl | rfl | rfl | rfl
      · exact absurd hd_ws (by decide)
      · exact absurd hd_ws (by decide)
      · exact absurd hd_ws (by decide)
      · exact absurd hd_ws (by decide)
      · exact Or.inl rfl
      · exact Or.inr rfl
    rcases hdd with rfl | rfl
    · exact parseVal_none_head hdrop (by decide) (by decide) (by decide) (by decide)
        (by decide) (by decide) (by decide) (by decide) n
    · exact parseVal_none_head hdrop (by decide) (by decide) (by decide) (by decide)
        (by decide) (by decide) (by decide) (by decide) n

lemma jsonParse_sp_bt {w1 : List Char} (rest : List Char)
    (hw1 : ∀ c ∈ w1, isSp c = true) : jsonParse (w1 ++ bt :: rest) = none := by
  unfold jsonParse
  rw [parseVal_none_of_sp_bt rest hw1 (w1 ++ bt :: rest).length]

lemma jsonParse_starter {b : List Char} {v : JVal} (h : jsonParse b = some v) :
    ∃ c r, b.dropWhile isWS = c :: r ∧
      ((c = '{' ∧ ∃ fs, v = jobj fs) ∨ goodStarter c = true) := by
  unfold jsonParse at h
  cases hpv : parseVal (b.length + 1) b with
  | none => rw [hpv] at h; cases h
  | some pr =>
    obtain ⟨v', rest⟩ := pr
    rw [hpv] at h
    dsimp only at h
    have hv : v' = v := by
      split at h
      · simpa using h
      · cases h
    subst hv
    unfold parseVal at hpv
    cases hdw : b.dropWhile isWS with
    | nil => rw [hdw] at hpv; cases hpv
    | cons c r =>
      rw [hdw] at hpv
      dsimp only at hpv
      refine ⟨c, r, rfl, ?_⟩
      by_cases h1 : c = '{'
      · rw [if_pos h1] at hpv
        exact Or.inl ⟨h1, parseObj_shape hpv⟩
      right
      rw [if_neg h1] at hpv
      by_cases h2 : c = '['
      · simp [goodStarter, h2]
      rw [if_neg h2] at hpv
      by_cases h3 : c = '"'
      · simp [goodStarter, h3]
      rw [if_neg h3] at hpv
      by_cases h4 : c = 't'
      · simp [goodStarter, h4]
      rw [if_neg h4] at hpv
      by_cases h5 : c = 'f'
      · simp [goodStarter, h5]
      rw [if_neg h5] at hpv
      by_cases h6 : c = 'n'
      · simp [goodStarter, h6]
      rw [if_neg h6] at hpv
      cases hpn : parseNum (c :: r) with
      | none => rw [hpn] at hpv; cases hpv
      | some y =>
        rcases parseNum_head hpn with rfl | hd
        · simp [goodStarter]
        · simp [goodStarter, hd]

lemma goodStarter_props {c : Char} (h : goodStarter c = true) :
    ¬ c = '{' ∧ ¬ c = 'j' ∧ isSp c = false := by
  have hc : c = '[' ∨ c = '"' ∨ c = 't' ∨ c = 'f' ∨ c = 'n' ∨ c = '-' ∨ isDigit c = true := by
    simpa [goodStarter, Bool.or_eq_true, or_assoc] using h
  rcases hc with rfl | rfl | rfl | rfl | rfl | rfl | hd
  · exact ⟨by decide, by decide, by decide⟩
  · exact ⟨by decide, by decide, by decide⟩
  · exact ⟨by decide, by decide, by decide⟩
  · exact ⟨by decide, by decide, by decide⟩
  · exact ⟨by decide, by decide, by decide⟩
  · exact ⟨by decide, by decide, by decide⟩
  · have hn : 48 ≤ c.toNat ∧ c.toNat ≤ 57 := by
      simpa [isDigit, decide_eq_true_eq] using hd
    refine ⟨?_, ?_, ?_⟩
    · intro he; rw [he] at hn; revert hn; decide
    · intro he; rw [he] at hn; revert hn; decide
    · cases hs : isSp c with
      | false => rfl
      | true =>
        rcases isSp_spec hs with rfl | rfl | rfl | rfl | rfl | rfl <;> revert hn <;> decide

lemma tagChars_no_bt (t : Bool) : ∀ c ∈ tagChars t, ¬ c = bt := by
  cases t <;> decide

lemma dropWhileSp_of_dropWhileWS {l : List Char} {c : Char} {r : List Char}
    (h : l.dropWhile isWS = c :: r) (hc : isSp c = false) :
    l.dropWhile isSp = c :: r := by
  induction l with
  | nil => cases h
  | cons a l' ih =>
    by_cases ha : isWS a = true
    · rw [List.dropWhile_cons_of_pos ha] at h
      rw [List.dropWhile_cons_of_pos (isWS_to_isSp ha)]
      exact ih h
    · rw [List.dropWhile_cons_of_neg (by simpa using ha)] at h
      rw [List.cons.injEq] at h
      obtain ⟨rfl, rfl⟩ := h
      rw [List.dropWhile_cons_of_neg (by simp [hc])]

lemma fenceScan_cons_some {c : Char} {l cap : List Char}
    (h : tryFence (c :: l) = some cap) : fenceScan (c :: l) = some cap := by
  calc fenceScan (c :: l)
      = (match tryFence (c :: l) with
         | some cap => some cap
         | none => fenceScan l) := rfl
    _ = some cap := by rw [h]

lemma lazyScan_shape : ∀ {l acc cap : List Char}, lazyScan acc l = some cap →
    ∃ m, cap = '{' :: (m ++ ['}']) := by
  intro l
  induction l with
  | nil => intro acc cap h; cases h
  | cons c rest ih =>
    intro acc cap h
    unfold lazyScan at h
    split at h
    · refine ⟨acc.reverse, ?_⟩
      simpa using h.symm
    · exact ih h

lemma tryBody_shape {l cap : List Char} (h : tryBody l = some cap) :
    ∃ m, cap = '{' :: (m ++ ['}']) := by
  unfold tryBody at h
  split at h
  · exact lazyScan_shape h
  · cases h

lemma tryFence_shape {l cap : List Char} (h : tryFence l = some cap) :
    ∃ m, cap = '{' :: (m ++ ['}']) := by
  unfold tryFence at h
  split at h
  · dsimp only at h
    split at h
    · split at h
      · rename_i heq
        exact tryBody_shape (heq.trans (by simpa using h))
      · exact tryBody_shape h
    · exact tryBody_shape h
  · cases h

lemma fenceScan_shape : ∀ {l cap : List Char}, fenceScan l = some cap →
    ∃ m, cap = '{' :: (m ++ ['}']) := by
  intro l
  induction l with
  | nil => intro cap h; cases h
  | cons c rest ih =>
    intro cap h
    have : (match tryFence (c :: rest) with
        | some cap => some cap
        | none => fenceScan rest) = some cap := h
    split at this
    · rename_i heq
      exact tryFence_shape (heq.trans (by simpa using this))
    · exact ih this

lemma tryBody_not_brace {w2 b Z : List Char} {c : Char} {r : List Char}
    (hw2 : ∀ x ∈ w2, isSp x = true)
    (hbsp : b.dropWhile isSp = c :: r) (hc : ¬ c = '{') :
    tryBody (w2 ++ (b ++ Z)) = none := by
  unfold tryBody
  have hd : (w2 ++ (b ++ Z)).dropWhile isSp = c :: (r ++ Z) := by
    rw [List.dropWhile_append_of_pos hw2, List.dropWhile_append, hbsp]
    simp
  rw [hd]
  split
  · rename_i rest heq
    rw [List.cons.injEq] at heq
    exact absurd heq.1 hc
  · rfl

lemma tryBody_head_not_brace {c : Char} (l : List Char) (hsp : isSp c = false)
    (hc : ¬ c = '{') : tryBody (c :: l) = none := by
  unfold tryBody
  rw [List.dropWhile_cons_of_neg (by simp [hsp])]
  split
  · rename_i rest heq
    rw [List.cons.injEq] at heq
    exact absurd heq.1 hc
  · rfl

lemma startsJsonTag_w2b {w2 b Z : List Char} {c : Char} {r : List Char}
    (hw2 : ∀ x ∈ w2, isSp x = true) (hbsp : b.dropWhile isSp = c :: r)
    (hj : ¬ c = 'j') : startsJsonTag (w2 ++ (b ++ Z)) = false := by
  cases w2 with
  | cons d w2' =>
    rw [List.cons_append]
    exact startsJsonTag_false_head _ (isSp_ne_j (hw2 d (List.mem_cons_self d w2')))
  | nil =>
    rw [List.nil_append]
    cases b with
    | nil => simp at hbsp
    | cons b0 b' =>
      rw [List.cons_append]
      by_cases hb0 : isSp b0 = true
      · exact startsJsonTag_false_head _ (isSp_ne_j hb0)
      · rw [List.dropWhile_cons_of_neg (by simpa using hb0)] at hbsp
        rw [List.cons.injEq] at hbsp
        obtain ⟨rfl, -⟩ := hbsp
        exact startsJsonTag_false_head _ hj

lemma tryFence_open_none {tag : Bool} {w2 b w3 w4 : List Char} {c : Char} {r : List Char}
    (hw2 : ∀ x ∈ w2, isSp x = true)
    (hbsp : b.dropWhile isSp = c :: r) (hbrace : ¬ c = '{') (hj : ¬ c = 'j') :
    tryFence (bt :: bt :: bt ::
      (tagChars tag ++ (w2 ++ (b ++ (w3 ++ bt :: bt :: bt :: w4))))) = none := by
  unfold tryFence
  rw [show startsBT (bt :: bt :: bt ::
      (tagChars tag ++ (w2 ++ (b ++ (w3 ++ bt :: bt :: bt :: w4))))) = true by
    simp [startsBT]]
  simp only [if_pos, List.drop_succ_cons, List.drop_zero]
  cases tag with
  | true =>
    rw [show tagChars true = 'j' :: 's' :: 'o' :: 'n' :: [] from rfl]
    rw [List.cons_append, List.cons_append, List.cons_append, List.cons_append,
      List.nil_append]
    rw [show startsJsonTag ('j' :: 's' :: 'o' :: 'n' ::
        (w2 ++ (b ++ (w3 ++ bt :: bt :: bt :: w4)))) = true from rfl]
    simp only [if_pos, List.drop_succ_cons, List.drop_zero]
    rw [tryBody_not_brace hw2 hbsp hbrace]
    exact tryBody_head_not_brace _ (by decide) (by decide)
  | false =>
    rw [show tagChars false = [] from rfl, List.nil_append]
    rw [startsJsonTag_w2b hw2 hbsp hj]
    simp only [Bool.false_eq_true, if_false]
    exact tryBody_not_brace hw2 hbsp hbrace

lemma tryFence_close_none {w4 : List Char} (hw4 : ∀ x ∈ w4, isSp x = true) :
    tryFence (bt :: bt :: bt :: w4) = none := by
  unfold tryFence
  rw [show startsBT (bt :: bt :: bt :: w4) = true by simp [startsBT]]
  simp only [if_pos, List.drop_succ_cons, List.drop_zero]
  have hjt : startsJsonTag w4 = false := by
    cases w4 with
    | nil => rfl
    | cons d w4' =>
      exact startsJsonTag_false_head _ (isSp_ne_j (hw4 d (List.mem_cons_self d w4')))
  rw [hjt]
  simp only [Bool.false_eq_true, if_false]
  unfold tryBody
  rw [dropWhile_all_sp hw4]

lemma fenceScan_open {tag : Bool} {w1 w2 mid w3 w4 : List Char}
    (hw1 : ∀ c ∈ w1, isSp c = true) (hw2 : ∀ c ∈ w2, isSp c = true)
    (hw3 : ∀ c ∈ w3, isSp c = true) (hmid : ∀ c ∈ mid, ¬ c = bt) :
    fenceScan (w1 ++ bt :: bt :: bt ::
        (tagChars tag ++ (w2 ++ ('{' :: (mid ++ '}' :: (w3 ++ bt :: bt :: bt :: w4)))))) =
      some ('{' :: (mid ++ ['}'])) := by
  rw [fenceScan_append_no_bt _ (fun c hc => isSp_ne_bt (hw1 c hc))]
  exact fenceScan_cons_some (tryFence_open hw2 hw3 hmid)

lemma fenceScan_close_none {w4 : List Char} (hw4 : ∀ x ∈ w4, isSp x = true) :
    fenceScan (bt :: bt :: bt :: w4) = none := by
  rw [fenceScan_cons3 (tryFence_close_none hw4) ?_]
  · exact fenceScan_none_no_bt (fun c hc => isSp_ne_bt (hw4 c hc))
  · cases w4 with
    | nil => exact Or.inl rfl
    | cons d w4' =>
      exact Or.inr ⟨d, w4', rfl, isSp_ne_bt (hw4 d (List.mem_cons_self d w4'))⟩

/-- C4 (amended): the Response Parser round-trip law.  (1) Every input that
is valid JSON parses to exactly `JSON.parse` of the input.  (2) Every input
consisting of a backtick-free JSON **object** body (brace-delimited) wrapped
in a triple-backtick fence — optional `json` tag, arbitrary surrounding
whitespace — parses to the same value as the body with the fence stripped.
(For array/string/number bodies, or bodies containing backticks, the law
fails; see the counterexample.) -/
theorem c4_parser_round_trip :
    (∀ (raw ctx : List Char) (v : JVal), jsonParse raw = some v →
       parseAIResponse raw ctx = Except.ok v) ∧
    (∀ (ctx w1 w2 w3 w4 mid : List Char) (tag : Bool) (v : JVal),
       (∀ c ∈ w1, isSp c = true) → (∀ c ∈ w2, isSp c = true) →
       (∀ c ∈ w3, isSp c = true) → (∀ c ∈ w4, isSp c = true) →
       (∀ c ∈ mid, ¬ c = bt) →
       jsonParse ('{' :: (mid ++ ['}'])) = some v →
       parseAIResponse
           (w1 ++ bt :: bt :: bt ::
             (tagChars tag ++ (w2 ++ ('{' :: (mid ++ '}' ::
               (w3 ++ bt :: bt :: bt :: w4)))))) ctx
         = Except.ok v) := by
  constructor
  · intro raw ctx v h
    unfold parseAIResponse
    rw [h]
  · intro ctx w1 w2 w3 w4 mid tag v hw1 hw2 hw3 hw4 hmid hv
    unfold parseAIResponse
    rw [jsonParse_sp_bt _ hw1, fenceScan_open hw1 hw2 hw3 hmid]
    dsimp only
    rw [hv]

/-- Concrete instantiation of `c4_parser_round_trip`. -/
theorem c4_parser_round_trip_witness :
    parseAIResponse "\x7b\"a\": 1\x7d".data "AI response".data
        = Except.ok (jobj [("a".data, jnum ['1'])]) ∧
    parseAIResponse ([' '] ++ bt :: bt :: bt ::
        (tagChars true ++ ([' '] ++ ('{' :: ("\"a\": 1".data ++ '}' ::
          ([' '] ++ bt :: bt :: bt :: [' ']))))))
        "AI response".data = Except.ok (jobj [("a".data, jnum ['1'])]) :=
  ⟨c4_parser_round_trip.1 "\x7b\"a\": 1\x7d".data "AI response".data
      (jobj [("a".data, jnum ['1'])]) (by rfl),
   c4_parser_round_trip.2 "AI response".data [' '] [' '] [' '] [' '] "\"a\": 1".data true
     (jobj [("a".data, jnum ['1'])]) (by decide) (by decide) (by decide) (by decide)
     (by decide) (by rfl)⟩

/-- C9 (amended): the fence-extraction fallback only ever captures a body
that begins with an opening brace and ends with a closing brace; and for
every input that is not directly valid JSON whose fenced body is
backtick-free valid JSON that is not an object (an array, string, number,
boolean or null), the parser raises its invalid-format error even though
stripping the fence would yield valid JSON.  (A body containing backticks
can defeat this; see the counterexample.) -/
theorem c9_fence_requires_object :
    (∀ (l cap : List Char), fenceScan l = some cap →
       ∃ m, cap = '{' :: (m ++ ['}'])) ∧
    (∀ (ctx w1 w2 w3 w4 b : List Char) (tag : Bool) (v : JVal),
       (∀ c ∈ w1, isSp c = true) → (∀ c ∈ w2, isSp c = true) →
       (∀ c ∈ w3, isSp c = true) → (∀ c ∈ w4, isSp c = true) →
       (∀ c ∈ b, ¬ c = bt) →
       jsonParse b = some v → (∀ fs, v ≠ jobj fs) →
       parseAIResponse
           (w1 ++ bt :: bt :: bt ::
             (tagChars tag ++ (w2 ++ (b ++ (w3 ++ bt :: bt :: bt :: w4))))) ctx
         = Except.error ("Invalid response format from AI for ".data ++ ctx)) := by
  constructor
  · exact fun l cap h => fenceScan_shape h
  · intro ctx w1 w2 w3 w4 b tag v hw1 hw2 hw3 hw4 hbbt hjson hnotobj
    obtain ⟨c, r, hdw, hstar⟩ := jsonParse_starter hjson
    have hgood : goodStarter c = true := by
      rcases hstar with ⟨-, fs, rfl⟩ | hg
      · exact absurd rfl (hnotobj fs)
      · exact hg
    obtain ⟨hbrace, hj, hcsp⟩ := goodStarter_props hgood
    have hbsp : b.dropWhile isSp = c :: r := dropWhileSp_of_dropWhileWS hdw hcsp
    have hbne : b ≠ [] := by
      intro hb0
      rw [hb0] at hdw
      simp at hdw
    have hR : tagChars tag ++ (w2 ++ (b ++ (w3 ++ bt :: bt :: bt :: w4))) = [] ∨
        ∃ d R', tagChars tag ++ (w2 ++ (b ++ (w3 ++ bt :: bt :: bt :: w4))) = d :: R' ∧
          ¬ d = bt := by
      right
      cases tag with
      | true => exact ⟨'j', _, rfl, by decide⟩
      | false =>
        rw [show tagChars false = [] from rfl, List.nil_append]
        cases w2 with
        | cons d w2' =>
          exact ⟨d, _, List.cons_append d w2' _,
            isSp_ne_bt (hw2 d (List.mem_cons_self d w2'))⟩
        | nil =>
          rw [List.nil_append]
          cases hb : b with
          | nil => exact absurd hb hbne
          | cons b0 b' =>
            exact ⟨b0, _, List.cons_append b0 b' _,
              hbbt b0 (hb ▸ List.mem_cons_self b0 b')⟩
    have hscan : fenceScan (w1 ++ bt :: bt :: bt ::
        (tagChars tag ++ (w2 ++ (b ++ (w3 ++ bt :: bt :: bt :: w4))))) = none := by
      rw [fenceScan_append_no_bt _ (fun x hx => isSp_ne_bt (hw1 x hx)),
        fenceScan_cons3 (tryFence_open_none hw2 hbsp hbrace hj) hR]
      have hassoc : tagChars tag ++ (w2 ++ (b ++ (w3 ++ bt :: bt :: bt :: w4)))
          = (tagChars tag ++ (w2 ++ (b ++ w3))) ++ (bt :: bt :: bt :: w4) := by
        simp [List.append_assoc]
      rw [hassoc, fenceScan_append_no_bt _ ?hno]
      · exact fenceScan_close_none hw4
      case hno =>
        intro x hx
        simp only [List.mem_append] at hx
        rcases hx with hx | hx | hx | hx
        · exact tagChars_no_bt tag x hx
        · exact isSp_ne_bt (hw2 x hx)
        · exact hbbt x hx
        · exact isSp_ne_bt (hw3 x hx)
    unfold parseAIResponse
    rw [jsonParse_sp_bt _ hw1, hscan]

/-- Concrete instantiation of `c9_fence_requires_object`. -/
theorem c9_fence_requires_object_witness :
    (∃ m, "\x7b\x7d".data = '{' :: (m ++ ['}'])) ∧
    parseAIResponse ([' '] ++ bt :: bt :: bt ::
        (tagChars true ++ ([' '] ++ ("[1, 2]".data ++
          ([' '] ++ bt :: bt :: bt :: [' '])))))
        "AI response".data
      = Except.error ("Invalid response format from AI for ".data ++ "AI response".data) :=
  ⟨c9_fence_requires_object.1 "\x60\x60\x60\x7b\x7d\x60\x60\x60".data "\x7b\x7d".data
      (by rfl),
   c9_fence_requires_object.2 "AI response".data [' '] [' '] [' '] [' '] "[1, 2]".data true
     (jarr [jnum ['1'], jnum ['2']]) (by decide) (by decide) (by decide) (by decide)
     (by decide) (by rfl) (fun fs h => JVal.noConfusion h)⟩

end AcePrep
